import Mathlib

/-!
Verification of the thrift-parser repository (a nom-based recursive-descent
parser for the Apache Thrift IDL) against its natural-language specification.

The embedding models parser input as `List Char`.  A parser is a function
from the remaining input to `Option (remaining input × value)`, mirroring
nom's `IResult<&str, T>`: `none` stands for `Err(Err::Error(..))` (the code
never uses `cut`, so `Failure` never occurs and one failure mode suffices).

The nom combinators used by the source are modelled one by one below
(`tag`, `char`, `one_of`, `satisfy`, `take_till`, `take_until`,
`take_while`, `digit0`, `digit1`, `multispace1`, `map`, `map_res`, `opt`,
`recognize`, `alt`, `pair`, `tuple`, `preceded`, `terminated`, `delimited`,
`separated_pair`, `many0`, `many1`, `separated_list0`).  Loops (`many0`,
`many1`, `separated_list0`) carry nom's infinite-loop guard (a successful
inner parse that consumes nothing is a hard error) and are driven by a fuel
bounded by the input length, which suffices because every iteration of the
real loops consumes at least one character.

Machine values: Rust `i64` parsing is modelled on `Int` with the explicit
two's-complement bounds check that `i64::from_str` performs (overflow is a
conversion error, not wrapping).  Rust `f64` literal values are modelled as
exact rationals (`ℚ`); the grammar and the success/failure behaviour of
`f64::from_str` on the strings the recognizer can produce are modelled
exactly, only the final rounding to a binary float is idealized, and no
claim below depends on rounding.
-/

abbrev Parser (α : Type) : Type := List Char → Option (List Char × α)

/-- nom `map`. -/
def pmap (f : α → β) (p : Parser α) : Parser β := fun i =>
  match p i with
  | some (r, a) => some (r, f a)
  | none => none

/-- nom `map_res`: the conversion failing makes the parser fail. -/
def mapRes (p : Parser α) (f : α → Option β) : Parser β := fun i =>
  match p i with
  | some (r, a) =>
    match f a with
    | some b => some (r, b)
    | none => none
  | none => none

/-- nom `alt` for two branches; longer `alt`s are right-nested chains. -/
def alt2 (p q : Parser α) : Parser α := fun i =>
  match p i with
  | some x => some x
  | none => q i

/-- nom `opt`: never fails. -/
def popt (p : Parser α) : Parser (Option α) := fun i =>
  match p i with
  | some (r, a) => some (r, some a)
  | none => some (i, none)

/-- nom `pair` (also the spine of `tuple`). -/
def ppair (p : Parser α) (q : Parser β) : Parser (α × β) := fun i =>
  match p i with
  | some (r, a) =>
    match q r with
    | some (r2, b) => some (r2, (a, b))
    | none => none
  | none => none

/-- nom `preceded`. -/
abbrev preceded (p : Parser α) (q : Parser β) : Parser β :=
  pmap Prod.snd (ppair p q)

/-- nom `terminated`. -/
abbrev terminated (p : Parser α) (q : Parser β) : Parser α :=
  pmap Prod.fst (ppair p q)

/-- nom `delimited`. -/
abbrev delimited (p : Parser α) (q : Parser β) (r : Parser γ) : Parser β :=
  preceded p (terminated q r)

/-- nom `separated_pair`. -/
abbrev separatedPair (p : Parser α) (sep : Parser γ) (q : Parser β) : Parser (α × β) :=
  ppair (terminated p sep) q

/-- nom `tuple` for three parsers (right-nested pairs). -/
abbrev ptuple3 (p : Parser α) (q : Parser β) (r : Parser γ) : Parser (α × β × γ) :=
  ppair p (ppair q r)

/-- nom `satisfy`. -/
def satisfy (f : Char → Bool) : Parser Char := fun i =>
  match i with
  | c :: rest => if f c then some (rest, c) else none
  | [] => none

/-- nom `char`. -/
def cchar (c : Char) : Parser Char := satisfy (fun x => x == c)

/-- nom `one_of`. -/
def oneOf (s : List Char) : Parser Char := satisfy (fun x => s.contains x)

/-- nom `tag`. -/
def tag (t : List Char) : Parser (List Char) := fun i =>
  if t.isPrefixOf i then some (i.drop t.length, t) else none

/-- nom `take_while`: maximal run of characters satisfying `f`; never fails. -/
def takeWhileP (f : Char → Bool) : Parser (List Char) := fun i =>
  some (i.dropWhile f, i.takeWhile f)

/-- nom `take_while1`-style helper used for `digit1`/`multispace1`. -/
def takeWhile1P (f : Char → Bool) : Parser (List Char) := fun i =>
  match i with
  | c :: _ => if f c then some (i.dropWhile f, i.takeWhile f) else none
  | [] => none

/-- nom `digit0`. -/
def digit0 : Parser (List Char) := takeWhileP (fun c => c.isDigit)

/-- nom `digit1`. -/
def digit1 : Parser (List Char) := takeWhile1P (fun c => c.isDigit)

/-- The whitespace class of nom `multispace1`: space, tab, CR, LF. -/
def wsChar (c : Char) : Bool := c == ' ' || c == '\t' || c == '\r' || c == '\n'

/-- nom `multispace1`. -/
def multispace1 : Parser (List Char) := takeWhile1P wsChar

/-- nom `take_till`: consume until the predicate holds; never fails. -/
def takeTill (f : Char → Bool) : Parser (List Char) := fun i =>
  some (i.dropWhile (fun c => !f c), i.takeWhile (fun c => !f c))

/-- nom `take_until` (complete): consume up to the first occurrence of the
pattern; fail if the pattern never occurs. -/
def takeUntil (pat : List Char) : Parser (List Char)
  | c :: rest =>
    if pat.isPrefixOf (c :: rest) then some (c :: rest, [])
    else
      match takeUntil pat rest with
      | some (r, cs) => some (r, c :: cs)
      | none => none
  | [] => if pat.isPrefixOf [] then some ([], []) else none

/-- nom `recognize`: on success return the consumed slice (computed, as in
nom, from the offset between input and remainder). -/
def recognize (p : Parser α) : Parser (List Char) := fun i =>
  match p i with
  | some (r, _) => some (r, i.take (i.length - r.length))
  | none => none

/-- Loop of nom `many0`/`many1`, with nom's infinite-loop guard: a
successful inner parse that consumes nothing is an error. -/
def many0Go (p : Parser α) : Nat → Parser (List α)
  | 0 => fun _ => none
  | n + 1 => fun i =>
    match p i with
    | none => some (i, [])
    | some (r, a) =>
      if r.length = i.length then none
      else
        match many0Go p n r with
        | some (r2, rest) => some (r2, a :: rest)
        | none => none

/-- nom `many0`.  The fuel `i.length + 1` is enough for every run in which
each iteration consumes input, which the guard enforces. -/
def many0 (p : Parser α) : Parser (List α) := fun i => many0Go p (i.length + 1) i

/-- nom `many1`: a first mandatory parse (unguarded, as in nom), then the
guarded loop. -/
def many1 (p : Parser α) : Parser (List α) := fun i =>
  match p i with
  | none => none
  | some (r, a) =>
    match many0Go p (r.length + 1) r with
    | some (r2, rest) => some (r2, a :: rest)
    | none => none

/-- Loop of nom `separated_list0`: try the separator (guarded against empty
separator matches), then the element; an element failure after a successful
separator rolls back to before that separator. -/
def sepList0Go (sep : Parser γ) (p : Parser α) : Nat → Parser (List α)
  | 0 => fun _ => none
  | n + 1 => fun i =>
    match sep i with
    | none => some (i, [])
    | some (i1, _) =>
      if i1.length = i.length then none
      else
        match p i1 with
        | none => some (i, [])
        | some (i2, a) =>
          match sepList0Go sep p n i2 with
          | some (r, rest) => some (r, a :: rest)
          | none => none

/-- nom `separated_list0`. -/
def separatedList0 (sep : Parser γ) (p : Parser α) : Parser (List α) := fun i =>
  match p i with
  | none => some (i, [])
  | some (i1, a) =>
    match sepList0Go sep p (i1.length + 1) i1 with
    | some (r, rest) => some (r, a :: rest)
    | none => none

namespace Thrift

/-! ## src/basic.rs : lexical primitives -/

/-- `Literal` holds the raw content between the quotes. -/
abbrev Literal := List Char

/-- basic.rs `Literal::parse`:
`alt((delimited('"', take_until("\""), '"'), delimited('\'', take_until("'"), '\'')))`. -/
def Literal.parse : Parser Literal :=
  alt2 (delimited (cchar '"') (takeUntil ['"']) (cchar '"'))
       (delimited (cchar '\'') (takeUntil ['\'']) (cchar '\''))

/-- `Identifier` holds the raw matched name. -/
abbrev Identifier := List Char

/-- basic.rs `Identifier::parse`:
`recognize(tuple((opt('_'), satisfy(is_ascii_alphabetic), take_while(alnum | '.' | '_'))))`. -/
def Identifier.parse : Parser Identifier :=
  recognize (ptuple3 (popt (cchar '_'))
                     (satisfy (fun c => c.isAlpha))
                     (takeWhileP (fun c => c.isAlphanum || c == '.' || c == '_')))

/-- basic.rs `ListSeparator::parse`: `one_of(",;")`. -/
def ListSeparator.parse : Parser Unit :=
  pmap (fun _ => ()) (oneOf [',', ';'])

/-- `Comment` holds the inner comment text. -/
abbrev Comment := List Char

/-- basic.rs `Comment::parse`: `//`-to-eol, `#`-to-eol, or `/*`-to-first-`*/`. -/
def Comment.parse : Parser Comment :=
  alt2 (preceded (tag ['/', '/']) (takeTill (fun c => c == '\n')))
  (alt2 (preceded (cchar '#') (takeTill (fun c => c == '\n')))
        (delimited (tag ['/', '*']) (takeUntil ['*', '/']) (tag ['*', '/'])))

/-- basic.rs `Separator::parse`: `many1(alt((Comment, multispace1)))`. -/
def Separator.parse : Parser Unit :=
  pmap (fun _ => ())
    (many1 (alt2 (pmap (fun _ => ()) Comment.parse)
                 (pmap (fun _ => ()) multispace1)))

/-! ## src/constant.rs : constant-value grammar -/

/-- Numeric value of an all-digit run, most significant first. -/
def digitsToNat (ds : List Char) : Nat :=
  ds.foldl (fun acc c => acc * 10 + (c.toNat - '0'.toNat)) 0

/-- Rust `i64::from_str`, on the strings the `IntConstant` recognizer can
produce: optional sign, then digits; the two's-complement 64-bit range check
makes overflow a conversion error. -/
def rustParseI64 (s : List Char) : Option Int :=
  match s with
  | [] => none
  | c :: rest =>
    let neg : Bool := c == '-'
    let ds : List Char := if c == '-' || c == '+' then rest else s
    if ds.isEmpty || !(ds.all (fun d => d.isDigit)) then none
    else
      let v : Int := if neg then -(digitsToNat ds : Int) else (digitsToNat ds : Int)
      if -(2 ^ 63) ≤ v ∧ v ≤ 2 ^ 63 - 1 then some v else none

/-- `IntConstant` holds the parsed signed 64-bit value. -/
abbrev IntConstant := Int

/-- constant.rs `IntConstant::parse`:
`map_res(recognize(tuple((opt(alt(('-', '+'))), digit1))), i64::from_str)`. -/
def IntConstant.parse : Parser IntConstant :=
  mapRes (recognize (ppair (popt (alt2 (cchar '-') (cchar '+'))) digit1))
         rustParseI64

/-- `DoubleConstant` holds the literal's numeric value, modelled as an exact
rational (see the header comment). -/
abbrev DoubleConstant := ℚ

/-- Rust `f64::from_str` on the strings the `DoubleConstant` recognizer can
produce (`sign? digits* ('.' digits+)? (('E'|'e') sign? digits+)?`): the
conversion fails exactly when the mantissa has no digit at all; otherwise the
value is the exact decimal (idealizing only the rounding to binary). -/
def rustParseF64 (s : List Char) : Option ℚ :=
  let neg : Bool := match s with
    | '-' :: _ => true
    | _ => false
  let s1 : List Char := match s with
    | '-' :: r => r
    | '+' :: r => r
    | _ => s
  let ip := s1.takeWhile (fun c => c.isDigit)
  let s2 := s1.dropWhile (fun c => c.isDigit)
  let fp : List Char := match s2 with
    | '.' :: r => r.takeWhile (fun c => c.isDigit)
    | _ => []
  let s3 : List Char := match s2 with
    | '.' :: r => r.dropWhile (fun c => c.isDigit)
    | _ => s2
  let eneg : Bool := match s3 with
    | 'e' :: '-' :: _ => true
    | 'E' :: '-' :: _ => true
    | _ => false
  let emag : Nat := match s3 with
    | 'e' :: r | 'E' :: r =>
      (match r with
       | '-' :: r2 => digitsToNat (r2.takeWhile (fun c => c.isDigit))
       | '+' :: r2 => digitsToNat (r2.takeWhile (fun c => c.isDigit))
       | _ => digitsToNat (r.takeWhile (fun c => c.isDigit)))
    | _ => 0
  if ip.isEmpty && fp.isEmpty then none
  else
    let mant : Nat := digitsToNat ip * 10 ^ fp.length + digitsToNat fp
    let num : Int := (if neg then -(mant : Int) else (mant : Int))
                       * (if eneg then 1 else 10 ^ emag)
    let den : Nat := 10 ^ fp.length * (if eneg then 10 ^ emag else 1)
    some (mkRat num den)

/-- The shared recognizer of both double entry points:
`recognize(tuple((opt(sign), digit0, opt(pair('.', digit1)), opt(pair(E|e, IntConstant)))))`. -/
def doubleRecognizer : Parser (List Char) :=
  recognize (ppair (popt (alt2 (cchar '-') (cchar '+')))
            (ppair digit0
            (ppair (popt (ppair (cchar '.') digit1))
                   (popt (ppair (alt2 (cchar 'E') (cchar 'e')) IntConstant.parse)))))

/-- constant.rs `DoubleConstant::parse` (the general numeric grammar). -/
def DoubleConstant.parse : Parser DoubleConstant :=
  mapRes doubleRecognizer rustParseF64

/-- constant.rs `DoubleConstant::parse2`: same recognizer, but a match that
contains neither `.` nor `e`/`E` is rejected before conversion. -/
def DoubleConstant.parse2 : Parser DoubleConstant :=
  mapRes doubleRecognizer (fun d =>
    if !(d.contains '.') && !(d.contains 'e') && !(d.contains 'E') then none
    else rustParseF64 d)

/-- constant.rs `ConstValue` (sum of the six constant forms). -/
inductive ConstValue where
  | Identifier (x : Identifier)
  | Literal (s : Literal)
  | Double (d : DoubleConstant)
  | Int (i : IntConstant)
  | List (xs : List ConstValue)
  | Map (kvs : List (ConstValue × ConstValue))

/-- constant.rs `parse_list_separator`: at least one Separator or
ListSeparator: `alt((tuple((Separator, opt(ListSeparator), opt(Separator))),
tuple((ListSeparator, opt(Separator)))))`. -/
def parse_list_separator : Parser Unit :=
  alt2 (pmap (fun _ => ()) (ptuple3 Separator.parse
                                    (popt ListSeparator.parse)
                                    (popt Separator.parse)))
       (pmap (fun _ => ()) (ppair ListSeparator.parse (popt Separator.parse)))

/-!
Fueled bodies of the mutually recursive `ConstValue` / `ConstList` /
`ConstMap` parsers.  The fuel only bounds recursion depth; each recursive
step of the real parser consumes at least one bracket character, so the
entry-point fuel below never runs out.
-/
mutual

/-- constant.rs `ConstValue::parse` body:
`alt((Identifier, Literal, DoubleConstant::parse2, IntConstant, ConstList, ConstMap))`. -/
def constValueGo : Nat → Parser ConstValue
  | 0 => fun _ => none
  | n + 1 =>
    alt2 (pmap ConstValue.Identifier Identifier.parse)
    (alt2 (pmap ConstValue.Literal Literal.parse)
    (alt2 (pmap ConstValue.Double DoubleConstant.parse2)
    (alt2 (pmap ConstValue.Int IntConstant.parse)
    (alt2 (pmap ConstValue.List (constListGo n))
          (pmap ConstValue.Map (constMapGo n))))))

/-- constant.rs `ConstList::parse` body:
`delimited(pair('[', opt(Separator)), separated_list0(parse_list_separator, ConstValue), pair(opt(Separator), ']'))`. -/
def constListGo : Nat → Parser (List ConstValue)
  | 0 => fun _ => none
  | n + 1 =>
    delimited (ppair (cchar '[') (popt Separator.parse))
              (separatedList0 parse_list_separator (constValueGo n))
              (ppair (popt Separator.parse) (cchar ']'))

/-- constant.rs `ConstMap::parse` body:
`delimited(pair('\x7b', opt(Separator)), separated_list0(parse_list_separator, separated_pair(ConstValue, delimited(opt(Separator), ':', opt(Separator)), ConstValue)), pair(opt(Separator), '\x7d'))`. -/
def constMapGo : Nat → Parser (List (ConstValue × ConstValue))
  | 0 => fun _ => none
  | n + 1 =>
    delimited (ppair (cchar '{') (popt Separator.parse))
              (separatedList0 parse_list_separator
                (separatedPair (constValueGo n)
                               (delimited (popt Separator.parse) (cchar ':') (popt Separator.parse))
                               (constValueGo n)))
              (ppair (popt Separator.parse) (cchar '}'))

end

/-- constant.rs `ConstValue::parse` (entry point; fuel covers any nesting
reachable from this input, since two fuel units cost at least one consumed
character). -/
def ConstValue.parse : Parser ConstValue := fun i => constValueGo (2 * i.length + 2) i

abbrev ConstList := List ConstValue

/-- constant.rs `ConstList::parse` (entry point). -/
def ConstList.parse : Parser ConstList := fun i => constListGo (2 * i.length + 2) i

abbrev ConstMap := List (ConstValue × ConstValue)

/-- constant.rs `ConstMap::parse` (entry point). -/
def ConstMap.parse : Parser ConstMap := fun i => constMapGo (2 * i.length + 2) i

/-! ## src/types.rs : type grammar -/

/-- types.rs `FieldType`. -/
inductive FieldType where
  | Identifier (x : Identifier)
  | Bool
  | Byte
  | I8
  | I16
  | I32
  | I64
  | Double
  | String
  | Binary
  | Map (k v : FieldType)
  | Set (t : FieldType)
  | List (t : FieldType)

/-- `CppType` wraps the literal annotation (parsed, then discarded). -/
abbrev CppType := Literal

/-- types.rs `CppType::parse`: `preceded("cpp_type", preceded(Separator, Literal))`. -/
def CppType.parse : Parser CppType :=
  preceded (tag "cpp_type".toList) (preceded Separator.parse Literal.parse)

/-- types.rs `FieldType::parse_base_type`: the nine keyword alternatives, in
source order. -/
def FieldType.parse_base_type : Parser FieldType :=
  alt2 (pmap (fun _ => FieldType.Bool) (tag "bool".toList))
  (alt2 (pmap (fun _ => FieldType.Byte) (tag "byte".toList))
  (alt2 (pmap (fun _ => FieldType.I8) (tag "i8".toList))
  (alt2 (pmap (fun _ => FieldType.I16) (tag "i16".toList))
  (alt2 (pmap (fun _ => FieldType.I32) (tag "i32".toList))
  (alt2 (pmap (fun _ => FieldType.I64) (tag "i64".toList))
  (alt2 (pmap (fun _ => FieldType.Double) (tag "double".toList))
  (alt2 (pmap (fun _ => FieldType.String) (tag "string".toList))
        (pmap (fun _ => FieldType.Binary) (tag "binary".toList)))))))))

/-- types.rs `FieldType::parse_identifier_type`. -/
def FieldType.parse_identifier_type : Parser FieldType :=
  pmap FieldType.Identifier Identifier.parse

/-- types.rs `FieldType::parse_container_type`, parameterized by the parser
used for the recursive element occurrences of `FieldType::parse`.  Note the
fourth alternative: the bare identifier fallback is part of this function in
the source, despite its grammar comment `ContainerType ::= MapType | SetType
| ListType`. -/
def parse_container_type_with (ft : Parser FieldType) : Parser FieldType :=
  alt2 (pmap (fun kv : FieldType × FieldType => FieldType.Map kv.1 kv.2)
        (preceded (ptuple3 (tag "map".toList) (popt Separator.parse)
                           (popt (terminated CppType.parse (popt Separator.parse))))
                  (delimited (ppair (cchar '<') (popt Separator.parse))
                             (separatedPair ft
                               (ptuple3 (popt Separator.parse) (cchar ',') (popt Separator.parse))
                               ft)
                             (ppair (popt Separator.parse) (cchar '>')))))
  (alt2 (pmap FieldType.Set
        (preceded (ptuple3 (tag "set".toList) (popt Separator.parse)
                           (popt (terminated CppType.parse (popt Separator.parse))))
                  (delimited (ppair (cchar '<') (popt Separator.parse))
                             ft
                             (ppair (popt Separator.parse) (cchar '>')))))
  (alt2 (pmap FieldType.List
        (delimited (ppair (tag "list".toList) (popt Separator.parse))
                   (delimited (ppair (cchar '<') (popt Separator.parse))
                              ft
                              (ppair (popt Separator.parse) (cchar '>')))
                   (popt (ppair (popt Separator.parse) CppType.parse))))
        FieldType.parse_identifier_type))

/-- Fueled body of `FieldType::parse`:
`alt((parse_base_type, parse_container_type, parse_identifier_type))`. -/
def fieldTypeGo : Nat → Parser FieldType
  | 0 => fun _ => none
  | n + 1 =>
    alt2 FieldType.parse_base_type
    (alt2 (parse_container_type_with (fieldTypeGo n))
          FieldType.parse_identifier_type)

/-- types.rs `FieldType::parse` (entry point; each fuel unit of depth costs
at least one consumed character, so the fuel never runs out). -/
def FieldType.parse : Parser FieldType := fun i => fieldTypeGo (i.length + 1) i

/-- types.rs `FieldType::parse_container_type` (entry point). -/
def FieldType.parse_container_type : Parser FieldType := fun i =>
  parse_container_type_with (fieldTypeGo (i.length + 1)) i

/-! ## src/field.rs : fields -/

/-- field.rs `Field`. -/
structure Field where
  id : Option IntConstant
  required : Option Bool
  type_ : FieldType
  name : Identifier
  default : Option ConstValue

/-- field.rs `Field::parse`:
`FieldID? FieldReq? FieldType Identifier ('=' ConstValue)? Separator? ListSeparator?`. -/
def Field.parse : Parser Field :=
  pmap (fun x : Option IntConstant ×
                (Option Bool × (FieldType × (Identifier × (Option ConstValue ×
                  (Option Unit × Option Unit))))) =>
          match x with
          | (id, required, type_, name, dfl, _, _) =>
            { id := id, required := required, type_ := type_, name := name, default := dfl })
  (ppair (popt (terminated IntConstant.parse
                 (delimited (popt Separator.parse) (cchar ':') (popt Separator.parse))))
  (ppair (popt (terminated (alt2 (pmap (fun _ => true) (tag "required".toList))
                                 (pmap (fun _ => false) (tag "optional".toList)))
                           Separator.parse))
  (ppair (terminated FieldType.parse Separator.parse)
  (ppair (terminated Identifier.parse (popt Separator.parse))
  (ppair (popt (pmap (fun y : Char × (Option Unit × ConstValue) => y.2.2)
                     (ptuple3 (cchar '=') (popt Separator.parse) ConstValue.parse)))
  (ppair (popt Separator.parse)
         (popt ListSeparator.parse)))))))

/-! ## src/functions.rs : service operations -/

/-- functions.rs `Function` (`returns = none` means `void`). -/
structure Function where
  oneway : Bool
  returns : Option FieldType
  name : Identifier
  parameters : List Field
  exceptions : Option (List Field)

/-- functions.rs `Function::parse`:
`'oneway'? (FieldType | 'void') Identifier '(' Field* ')' ('throws' '(' Field* ')')? ListSeparator?`. -/
def Function.parse : Parser Function :=
  pmap (fun x : Bool × (Option FieldType × (Identifier × (List Field ×
                (Option (List Field) × Option (Option Unit × Unit))))) =>
          match x with
          | (ow, rets, name, params, exc, _) =>
            { oneway := ow, returns := rets, name := name, parameters := params,
              exceptions := exc })
  (ppair (pmap (fun o : Option (List Char) => o.isSome)
               (popt (terminated (tag "oneway".toList) Separator.parse)))
  (ppair (terminated (alt2 (pmap (fun _ => (none : Option FieldType)) (tag "void".toList))
                           (pmap some FieldType.parse))
                     Separator.parse)
  (ppair (terminated Identifier.parse (popt Separator.parse))
  (ppair (terminated (delimited (cchar '(')
                                (separatedList0 Separator.parse Field.parse)
                                (cchar ')'))
                     (popt Separator.parse))
  (ppair (popt (preceded (ppair (tag "throws".toList) Separator.parse)
                         (delimited (cchar '(')
                                    (separatedList0 Separator.parse Field.parse)
                                    (cchar ')'))))
         (popt (ppair (popt Separator.parse) ListSeparator.parse)))))))

/-! ## src/definition.rs : definitions -/

/-- definition.rs `Const`. -/
structure Const where
  name : Identifier
  type_ : FieldType
  value : ConstValue

/-- definition.rs `Const::parse`:
`'const' FieldType Identifier '=' ConstValue (Separator? ListSeparator)?`. -/
def Const.parse : Parser Const :=
  pmap (fun x : List Char × (FieldType × (Identifier × (Char × (ConstValue ×
                Option (Option Unit × Unit))))) =>
          match x with
          | (_, type_, name, _, value, _) => { name := name, type_ := type_, value := value })
  (ppair (tag "const".toList)
  (ppair (preceded Separator.parse FieldType.parse)
  (ppair (preceded Separator.parse Identifier.parse)
  (ppair (preceded (popt Separator.parse) (cchar '='))
  (ppair (preceded (popt Separator.parse) ConstValue.parse)
         (popt (ppair (popt Separator.parse) ListSeparator.parse)))))))

/-- definition.rs `Typedef` (the source's `alias` field is spelled `alias_`
here because `alias` is a reserved word in Lean). -/
structure Typedef where
  old : FieldType
  alias_ : Identifier

/-- definition.rs `Typedef::parse`:
`'typedef' alt((parse_base_type, parse_container_type)) Identifier`. -/
def Typedef.parse : Parser Typedef :=
  pmap (fun x : List Char × (FieldType × Identifier) =>
          match x with
          | (_, old, al) => { old := old, alias_ := al })
  (ptuple3 (tag "typedef".toList)
           (preceded Separator.parse
                     (alt2 FieldType.parse_base_type FieldType.parse_container_type))
           (preceded Separator.parse Identifier.parse))

/-- definition.rs `EnumValue`. -/
structure EnumValue where
  name : Identifier
  value : Option IntConstant

/-- definition.rs `EnumValue::parse`: `Identifier ('=' IntConstant)?`. -/
def EnumValue.parse : Parser EnumValue :=
  pmap (fun x : Identifier × Option IntConstant =>
          { name := x.1, value := x.2 })
  (ppair Identifier.parse
         (popt (pmap (fun y : Option Unit × (Char × (Option Unit × IntConstant)) => y.2.2.2)
                     (ppair (popt Separator.parse)
                     (ppair (cchar '=')
                     (ppair (popt Separator.parse) IntConstant.parse))))))

/-- definition.rs `Enum`. -/
structure Enum where
  name : Identifier
  children : List EnumValue

/-- definition.rs `Enum::parse`:
`'enum' Identifier '\x7b' separated_list0(parse_list_separator, EnumValue) '\x7d'`. -/
def Enum.parse : Parser Enum :=
  pmap (fun x : List Char × (Identifier × ((Option Unit × Char × Option Unit) ×
                (List EnumValue × Char))) =>
          match x with
          | (_, name, _, children, _) => { name := name, children := children })
  (ppair (tag "enum".toList)
  (ppair (preceded Separator.parse Identifier.parse)
  (ppair (ptuple3 (popt Separator.parse) (cchar '{') (popt Separator.parse))
  (ppair (separatedList0 parse_list_separator EnumValue.parse)
         (preceded (popt Separator.parse) (cchar '}'))))))

/-- definition.rs `Struct`. -/
structure Struct where
  name : Identifier
  fields : List Field

/-- definition.rs `Struct::parse`:
`'struct' Identifier '\x7b' separated_list0(Separator, Field) '\x7d'`. -/
def Struct.parse : Parser Struct :=
  pmap (fun x : (List Char × Unit) × (Identifier × (Char × (List Field ×
                (Option Unit × Char)))) =>
          match x with
          | (_, name, _, fields, _) => { name := name, fields := fields })
  (ppair (ppair (tag "struct".toList) Separator.parse)
  (ppair Identifier.parse
  (ppair (delimited (popt Separator.parse) (cchar '{') (popt Separator.parse))
  (ppair (separatedList0 Separator.parse Field.parse)
         (ppair (popt Separator.parse) (cchar '}'))))))

/-- definition.rs `Union`. -/
structure Union where
  name : Identifier
  fields : List Field

/-- definition.rs `Union::parse` (same shape as `Struct::parse`). -/
def Union.parse : Parser Union :=
  pmap (fun x : (List Char × Unit) × (Identifier × (Char × (List Field ×
                (Option Unit × Char)))) =>
          match x with
          | (_, name, _, fields, _) => { name := name, fields := fields })
  (ppair (ppair (tag "union".toList) Separator.parse)
  (ppair Identifier.parse
  (ppair (delimited (popt Separator.parse) (cchar '{') (popt Separator.parse))
  (ppair (separatedList0 Separator.parse Field.parse)
         (ppair (popt Separator.parse) (cchar '}'))))))

/-- definition.rs `Exception`. -/
structure Exception where
  name : Identifier
  fields : List Field

/-- definition.rs `Exception::parse` (same shape as `Struct::parse`). -/
def Exception.parse : Parser Exception :=
  pmap (fun x : (List Char × Unit) × (Identifier × (Char × (List Field ×
                (Option Unit × Char)))) =>
          match x with
          | (_, name, _, fields, _) => { name := name, fields := fields })
  (ppair (ppair (tag "exception".toList) Separator.parse)
  (ppair Identifier.parse
  (ppair (delimited (popt Separator.parse) (cchar '{') (popt Separator.parse))
  (ppair (separatedList0 Separator.parse Field.parse)
         (ppair (popt Separator.parse) (cchar '}'))))))

/-- definition.rs `Service`. -/
structure Service where
  name : Identifier
  extension : Option Identifier
  functions : List Function

/-- definition.rs `Service::parse`:
`'service' Identifier ('extends' Identifier)? '\x7b' Function* '\x7d'`. -/
def Service.parse : Parser Service :=
  pmap (fun x : Identifier × (Option Identifier × List Function) =>
          match x with
          | (name, ext, fns) => { name := name, extension := ext, functions := fns })
  (ptuple3 (delimited (ppair (tag "service".toList) Separator.parse)
                      Identifier.parse
                      (popt Separator.parse))
           (popt (pmap (fun y : List Char × (Unit × (Identifier × Option Unit)) => y.2.2.1)
                       (ppair (tag "extends".toList)
                       (ppair Separator.parse
                       (ppair Identifier.parse (popt Separator.parse))))))
           (delimited (ppair (cchar '{') (popt Separator.parse))
                      (separatedList0 Separator.parse Function.parse)
                      (ppair (popt Separator.parse) (cchar '}'))))

/-! ## src/header.rs : headers -/

/-- header.rs `Include` (wraps the literal path). -/
abbrev Include := Literal

/-- header.rs `Include::parse`: `preceded(pair("include", Separator), Literal)`. -/
def Include.parse : Parser Include :=
  preceded (ppair (tag "include".toList) Separator.parse) Literal.parse

/-- header.rs `CppInclude` (wraps the literal path). -/
abbrev CppInclude := Literal

/-- header.rs `CppInclude::parse`: `preceded(pair("cpp_include", Separator), Literal)`. -/
def CppInclude.parse : Parser CppInclude :=
  preceded (ppair (tag "cpp_include".toList) Separator.parse) Literal.parse

/-- header.rs `NamespaceScope` (the raw matched scope keyword). -/
abbrev NamespaceScope := List Char

/-- header.rs `NamespaceScope::parse`: the fixed alternation over the closed
scope keyword set, in source order (note `"py"` before `"py.twisted"`). -/
def NamespaceScope.parse : Parser NamespaceScope :=
  alt2 (tag "*".toList)
  (alt2 (tag "c_glib".toList)
  (alt2 (tag "rust".toList)
  (alt2 (tag "cpp".toList)
  (alt2 (tag "delphi".toList)
  (alt2 (tag "haxe".toList)
  (alt2 (tag "go".toList)
  (alt2 (tag "java".toList)
  (alt2 (tag "js".toList)
  (alt2 (tag "lua".toList)
  (alt2 (tag "netstd".toList)
  (alt2 (tag "perl".toList)
  (alt2 (tag "php".toList)
  (alt2 (tag "py".toList)
  (alt2 (tag "py.twisted".toList)
  (alt2 (tag "rb".toList)
  (alt2 (tag "st".toList)
        (tag "xsd".toList)))))))))))))))))

/-- header.rs `Namespace`. -/
structure Namespace where
  scope : NamespaceScope
  name : Identifier

/-- header.rs `Namespace::parse`: `'namespace' NamespaceScope Identifier`. -/
def Namespace.parse : Parser Namespace :=
  pmap (fun x : List Char × (NamespaceScope × Identifier) =>
          { scope := x.2.1, name := x.2.2 })
  (ptuple3 (tag "namespace".toList)
           (preceded Separator.parse NamespaceScope.parse)
           (preceded Separator.parse Identifier.parse))

/-! ## src/document.rs : document aggregator -/

/-- document.rs `Document`: ten per-category ordered collections. -/
structure Document where
  includes : List Include := []
  cpp_includes : List CppInclude := []
  namespaces : List Namespace := []
  typedefs : List Typedef := []
  consts : List Const := []
  enums : List Enum := []
  structs : List Struct := []
  unions : List Union := []
  exceptions : List Exception := []
  services : List Service := []

/-- One successful top-level production (the value pushed onto its category
list by the closures in `Document::parse`). -/
inductive TopItem where
  | inc (i : Include)
  | cppInc (i : CppInclude)
  | ns (i : Namespace)
  | td (i : Typedef)
  | cst (i : Const)
  | en (i : Enum)
  | st (i : Struct)
  | un (i : Union)
  | ex (i : Exception)
  | sv (i : Service)

/-- The push performed by the matching closure in `Document::parse`. -/
def Document.push (d : Document) : TopItem → Document
  | .inc i => { d with includes := d.includes ++ [i] }
  | .cppInc i => { d with cpp_includes := d.cpp_includes ++ [i] }
  | .ns i => { d with namespaces := d.namespaces ++ [i] }
  | .td i => { d with typedefs := d.typedefs ++ [i] }
  | .cst i => { d with consts := d.consts ++ [i] }
  | .en i => { d with enums := d.enums ++ [i] }
  | .st i => { d with structs := d.structs ++ [i] }
  | .un i => { d with unions := d.unions ++ [i] }
  | .ex i => { d with exceptions := d.exceptions ++ [i] }
  | .sv i => { d with services := d.services ++ [i] }

/-- The alternation over the ten top-level productions, in source order. -/
def topLevelAlt : Parser TopItem :=
  alt2 (pmap TopItem.inc Include.parse)
  (alt2 (pmap TopItem.cppInc CppInclude.parse)
  (alt2 (pmap TopItem.ns Namespace.parse)
  (alt2 (pmap TopItem.td Typedef.parse)
  (alt2 (pmap TopItem.cst Const.parse)
  (alt2 (pmap TopItem.en Enum.parse)
  (alt2 (pmap TopItem.st Struct.parse)
  (alt2 (pmap TopItem.un Union.parse)
  (alt2 (pmap TopItem.ex Exception.parse)
        (pmap TopItem.sv Service.parse)))))))))

/-- document.rs `Document::parse`:
`many0(delimited(opt(Separator), alt((..ten productions..)), opt(Separator)))`,
folding each success into its category list; the loop ending by inner
failure is a soft stop returning the remainder. -/
def Document.parse : Parser Document := fun input =>
  match many0 (delimited (popt Separator.parse) topLevelAlt (popt Separator.parse)) input with
  | some (remains, items) => some (remains, items.foldl Document.push {})
  | none => none

/-! ## Verification infrastructure definitions -/

/-- A parser preserves the buffer structure: any successful remainder is a
suffix of the input (the consumed prefix plus the remainder reassemble the
input) and is never longer than the input. -/
def Shrinks {α : Type} (p : Parser α) : Prop :=
  ∀ (i r : List Char) (v : α), p i = some (r, v) → r <:+ i ∧ r.length ≤ i.length

/-- A parser consumes at least one character on success. -/
def Consumes {α : Type} (p : Parser α) : Prop :=
  ∀ (i r : List Char) (v : α), p i = some (r, v) → r.length < i.length

/-- The signed value denoted by an optional sign and a digit run. -/
def signedDigitsVal (sgn ds : List Char) : Int :=
  if sgn = ['-'] then -(digitsToNat ds : Int) else (digitsToNat ds : Int)

/-- The signed 64-bit range of Rust `i64`. -/
def inI64Range (v : Int) : Prop := -(2 ^ 63) ≤ v ∧ v ≤ 2 ^ 63 - 1

/-!
Structured description of the flexible separator language of
`parse_list_separator` (any combination of comments, whitespace and at most
one `,`/`;`), used to state separator-insensitivity claims universally.
-/

/-- One whitespace-or-comment chunk of a `Separator` run. -/
inductive SepTok where
  | ws (s : List Char)
  | line (s : List Char)
  | hash (s : List Char)
  | block (s : List Char)

/-- The concrete text of a chunk (`//`, `#` and `/* */` markers included). -/
def SepTok.render : SepTok → List Char
  | .ws s => s
  | .line s => '/' :: '/' :: s
  | .hash s => '#' :: s
  | .block s => '/' :: '*' :: (s ++ ['*', '/'])

/-- The concrete text of a chunk list. -/
def renderToks : List SepTok → List Char
  | [] => []
  | t :: ts => t.render ++ renderToks ts

/-- Whether `pat` occurs as a contiguous subsequence. -/
def containsSeq (pat : List Char) : List Char → Bool
  | [] => pat.isEmpty
  | c :: r => pat.isPrefixOf (c :: r) || containsSeq pat r

/-- Chunk wellformedness: whitespace chunks are nonempty whitespace, line
comment bodies contain no newline, block comment bodies do not contain the
terminator. -/
def SepTok.good : SepTok → Bool
  | .ws s => !s.isEmpty && s.all wsChar
  | .line s => !(s.contains '\n')
  | .hash s => !(s.contains '\n')
  | .block s => !(containsSeq ['*', '/'] s)

/-- First character of the text of `ts ++ rest`. -/
def toksHead (ts : List SepTok) (rest : List Char) : Option Char :=
  match ts with
  | [] => rest.head?
  | t :: ts' =>
    match t.render with
    | c :: _ => some c
    | [] => toksHead ts' rest

/-- Chunk-list wellformedness relative to the text that follows: every chunk
is good, a whitespace chunk is followed by a non-whitespace character (so it
is a maximal run), and a line comment is terminated by a following newline
(so it does not swallow the following text). -/
def goodToks : List SepTok → List Char → Bool
  | [], _ => true
  | t :: ts, rest =>
    t.good && goodToks ts rest &&
    (match t with
     | .ws _ =>
       (match toksHead ts rest with
        | some c => !(wsChar c)
        | none => true)
     | .line _ => toksHead ts rest == some '\n'
     | .hash _ => toksHead ts rest == some '\n'
     | .block _ => true)

/-- The text that follows cannot extend a `Separator` run: it does not start
with whitespace or a comment opener. -/
def sepStop : List Char → Bool
  | [] => true
  | c :: r =>
    !(wsChar c) && !(c == '#') &&
    !(c == '/' && (match r with
                   | c2 :: _ => c2 == '/' || c2 == '*'
                   | [] => false))

/-- The text that follows cannot extend a `parse_list_separator` match:
`sepStop` and additionally not a `,`/`;`. -/
def plsStop (s : List Char) : Bool :=
  sepStop s && (match s with
                | c :: _ => !(c == ',') && !(c == ';')
                | [] => true)

/-- An element text starts with a character that no separator run can
absorb. -/
def startOk : List Char → Bool
  | [] => false
  | c :: _ => !(wsChar c) && !(c == '#') && !(c == '/') && !(c == ',') && !(c == ';')

/-- One full inter-element separator: optional leading chunks, at most one
`,`/`;`, optional trailing chunks. -/
structure SepSpec where
  pre : List SepTok
  punct : Option Char
  post : List SepTok

/-- The concrete text of a separator. -/
def SepSpec.render (sp : SepSpec) : List Char :=
  renderToks sp.pre ++ ((match sp.punct with
                         | some c => [c]
                         | none => []) ++ renderToks sp.post)

/-- Separator wellformedness relative to the following text: the punctuation
(if any) is `,` or `;`, chunks are wellformed at their positions, and a
punctuation-free separator has at least one chunk (the claim's "at least one
separator"). -/
def SepSpec.good (sp : SepSpec) (rest : List Char) : Bool :=
  match sp.punct with
  | some c =>
    (c == ',' || c == ';') &&
    goodToks sp.pre (c :: (renderToks sp.post ++ rest)) &&
    goodToks sp.post rest
  | none => !sp.pre.isEmpty && sp.post.isEmpty && goodToks sp.pre rest

/-- Concrete text of a separated element chain followed by `tail`. -/
def glueTail : List (SepSpec × List Char × ConstValue) → List Char → List Char
  | [], tail => tail
  | (sp, txt, _) :: ps, tail => sp.render ++ (txt ++ glueTail ps tail)

/-- The text that may follow a constant-list element: a separator chunk,
punctuation, or the closing bracket. -/
def elemStop : List Char → Bool
  | [] => true
  | c :: _ => c == ',' || c == ';' || c == ']' || c == '#' || c == '/' || wsChar c

/-- The element text parses (at any recursion fuel) exactly to its value,
whatever separator-or-close text follows. -/
def ElemOk (txt : List Char) (v : ConstValue) : Prop :=
  ∀ (n : Nat) (rest : List Char), elemStop rest = true →
    constValueGo (n + 1) (txt ++ rest) = some (rest, v)

/-- Wellformedness of a whole separated chain relative to the closing
text. -/
def chainOk : List (SepSpec × List Char × ConstValue) → List Char → Prop
  | [], _ => True
  | (sp, txt, v) :: ps, tail =>
    SepSpec.good sp (txt ++ glueTail ps tail) = true ∧
    startOk txt = true ∧ ElemOk txt v ∧ chainOk ps tail

/-! ## Claim theorems -/

/-- C1: the claim asserts that `"bool"` parses to the primitive `Bool` type
(true in the code) and that a type name beginning with a keyword but not
equal to it, such as `boolean` in `Field::parse "boolean x"`, parses as
`Identifier "boolean"`.  The code contradicts the second half: keyword tags
match mere prefixes, so `FieldType::parse` truncates `"boolean x"` to `Bool`
leaving `"ean x"`, and `Field::parse "boolean x"` then fails at the
mandatory separator instead of producing an identifier-typed field. -/
theorem claim1_keyword_truncation :
    FieldType.parse "bool".toList = some ([], FieldType.Bool) ∧
    FieldType.parse "boolean x".toList = some ("ean x".toList, FieldType.Bool) ∧
    Field.parse "boolean x".toList = none :=
  ⟨rfl, rfl, rfl⟩

/-- C2: the claim asserts `Typedef::parse` rejects a bare-identifier aliased
type.  The code accepts it: `parse_container_type` ends with an identifier
fallback alternative (contradicting its own grammar comment
`ContainerType ::= MapType | SetType | ListType`), so
`typedef MyType Alias` parses successfully with `old = Identifier "MyType"`. -/
theorem claim2_typedef_identifier_accepted :
    Typedef.parse "typedef MyType Alias".toList =
      some ([], { old := FieldType.Identifier "MyType".toList,
                  alias_ := "Alias".toList }) :=
  rfl

/-- C3: int/double disambiguation: `IntConstant::parse "123"` yields 123;
the strict `DoubleConstant::parse2` fails on `"123"` (no `.` or exponent in
the match); `DoubleConstant::parse "123.0"` yields 123.0; consequently
`ConstValue::parse` classifies `"123"` as `Int` and `"123.0"` as `Double`. -/
theorem claim3_int_double_disambiguation :
    IntConstant.parse "123".toList = some ([], 123) ∧
    DoubleConstant.parse2 "123".toList = none ∧
    DoubleConstant.parse "123.0".toList = some ([], mkRat 123 1) ∧
    ConstValue.parse "123".toList = some ([], ConstValue.Int 123) ∧
    ConstValue.parse "123.0".toList = some ([], ConstValue.Double (mkRat 123 1)) :=
  ⟨rfl, rfl, rfl, rfl, rfl⟩

/-- C8: container types nest to arbitrary depth:
`FieldType::parse "map<string,list<set<i32>>>"` consumes the whole input and
yields exactly `Map(String, List(Set(I32)))`. -/
theorem claim8_nested_containers :
    FieldType.parse "map<string,list<set<i32>>>".toList =
      some ([], FieldType.Map FieldType.String
                  (FieldType.List (FieldType.Set FieldType.I32))) :=
  rfl

/-- C9: in `NamespaceScope::parse` the `"py"` alternative precedes
`"py.twisted"`, so on any input beginning with `"py.twisted"` the scope
parsed is `"py"` with `".twisted..."` left unconsumed, and
`Namespace::parse "namespace py.twisted X"` fails because a mandatory
separator must follow the scope but the next character is `'.'`. -/
theorem claim9_py_twisted_unreachable :
    (∀ s : List Char,
       NamespaceScope.parse ("py.twisted".toList ++ s) =
         some (".twisted".toList ++ s, "py".toList)) ∧
    Namespace.parse "namespace py.twisted X".toList = none :=
  ⟨fun _ => rfl, rfl⟩


/-! ## Remainder-suffix invariant (combinator lemmas) -/

/-- Package a suffix fact with its length consequence. -/
theorem suffix_rem {r i : List Char} (h : r <:+ i) : r <:+ i ∧ r.length ≤ i.length :=
  ⟨h, h.length_le⟩

theorem shrinks_pmap (f : α → β) {p : Parser α} (hp : Shrinks p) : Shrinks (pmap f p) := by
  intro i r v h
  cases hpi : p i with
  | none => simp [pmap, hpi] at h
  | some x =>
    obtain ⟨r1, a⟩ := x
    simp [pmap, hpi] at h
    rcases h with ⟨rfl, -⟩
    exact hp i _ _ hpi

theorem shrinks_mapRes (f : α → Option β) {p : Parser α} (hp : Shrinks p) :
    Shrinks (mapRes p f) := by
  intro i r v h
  cases hpi : p i with
  | none => simp [mapRes, hpi] at h
  | some x =>
    obtain ⟨r1, a⟩ := x
    cases hf : f a with
    | none => simp [mapRes, hpi, hf] at h
    | some b =>
      simp [mapRes, hpi, hf] at h
      rcases h with ⟨rfl, -⟩
      exact hp i _ _ hpi

theorem shrinks_alt2 {p q : Parser α} (hp : Shrinks p) (hq : Shrinks q) :
    Shrinks (alt2 p q) := by
  intro i r v h
  cases hpi : p i with
  | none => simp [alt2, hpi] at h; exact hq i r v h
  | some x =>
    simp [alt2, hpi] at h
    exact hp i r v (by rw [hpi, h])

theorem shrinks_popt {p : Parser α} (hp : Shrinks p) : Shrinks (popt p) := by
  intro i r v h
  cases hpi : p i with
  | none =>
    simp [popt, hpi] at h
    rcases h with ⟨rfl, -⟩
    exact suffix_rem (List.suffix_refl i)
  | some x =>
    obtain ⟨r1, a⟩ := x
    simp [popt, hpi] at h
    rcases h with ⟨rfl, -⟩
    exact hp i _ _ hpi

theorem shrinks_ppair {p : Parser α} {q : Parser β} (hp : Shrinks p) (hq : Shrinks q) :
    Shrinks (ppair p q) := by
  intro i r v h
  cases hpi : p i with
  | none => simp [ppair, hpi] at h
  | some x =>
    obtain ⟨r1, a⟩ := x
    cases hqi : q r1 with
    | none => simp [ppair, hpi, hqi] at h
    | some y =>
      obtain ⟨r2, b⟩ := y
      simp [ppair, hpi, hqi] at h
      rcases h with ⟨rfl, -⟩
      exact suffix_rem ((hq r1 _ _ hqi).1.trans (hp i _ _ hpi).1)

theorem shrinks_satisfy (f : Char → Bool) : Shrinks (satisfy f) := by
  intro i r v h
  cases i with
  | nil => simp [satisfy] at h
  | cons c rest =>
    by_cases hc : f c
    · simp [satisfy, hc] at h
      rcases h with ⟨rfl, -⟩
      exact suffix_rem (List.suffix_cons c rest)
    · simp [satisfy, hc] at h

theorem shrinks_tag (t : List Char) : Shrinks (tag t) := by
  intro i r v h
  by_cases hpre : t.isPrefixOf i
  · simp [tag, hpre] at h
    rcases h with ⟨rfl, -⟩
    exact suffix_rem (List.drop_suffix _ _)
  · simp [tag, hpre] at h

theorem shrinks_takeWhileP (f : Char → Bool) : Shrinks (takeWhileP f) := by
  intro i r v h
  simp [takeWhileP] at h
  rcases h with ⟨rfl, -⟩
  exact suffix_rem (List.dropWhile_suffix f)

theorem shrinks_takeWhile1P (f : Char → Bool) : Shrinks (takeWhile1P f) := by
  intro i r v h
  cases i with
  | nil => simp [takeWhile1P] at h
  | cons c rest =>
    by_cases hc : f c
    · simp [takeWhile1P, hc] at h
      rcases h with ⟨rfl, -⟩
      exact suffix_rem ((List.dropWhile_suffix f).trans (List.suffix_cons c rest))
    · simp [takeWhile1P, hc] at h

theorem shrinks_takeTill (f : Char → Bool) : Shrinks (takeTill f) := by
  intro i r v h
  simp [takeTill] at h
  rcases h with ⟨rfl, -⟩
  exact suffix_rem (List.dropWhile_suffix _)

theorem shrinks_takeUntil (pat : List Char) : Shrinks (takeUntil pat) := by
  intro i r v h
  induction i generalizing r v with
  | nil =>
    by_cases hpre : pat.isPrefixOf ([] : List Char)
    · simp [takeUntil, hpre] at h
      rcases h with ⟨rfl, -⟩
      exact suffix_rem (List.suffix_refl _)
    · simp [takeUntil, hpre] at h
  | cons c rest ih =>
    by_cases hpre : pat.isPrefixOf (c :: rest)
    · simp [takeUntil, hpre] at h
      rcases h with ⟨rfl, -⟩
      exact suffix_rem (List.suffix_refl _)
    · cases htu : takeUntil pat rest with
      | none => simp [takeUntil, hpre, htu] at h
      | some x =>
        obtain ⟨r1, cs⟩ := x
        simp [takeUntil, hpre, htu] at h
        rcases h with ⟨rfl, -⟩
        exact suffix_rem ((ih _ _ htu).1.trans (List.suffix_cons c rest))

theorem shrinks_recognize {p : Parser α} (hp : Shrinks p) : Shrinks (recognize p) := by
  intro i r v h
  cases hpi : p i with
  | none => simp [recognize, hpi] at h
  | some x =>
    obtain ⟨r1, a⟩ := x
    simp [recognize, hpi] at h
    rcases h with ⟨rfl, -⟩
    exact hp i _ _ hpi

theorem shrinks_many0Go {p : Parser α} (hp : Shrinks p) : ∀ n, Shrinks (many0Go p n) := by
  intro n
  induction n with
  | zero => intro i r v h; simp [many0Go] at h
  | succ n ih =>
    intro i r v h
    cases hpi : p i with
    | none =>
      simp [many0Go, hpi] at h
      rcases h with ⟨rfl, -⟩
      exact suffix_rem (List.suffix_refl _)
    | some x =>
      obtain ⟨r1, a⟩ := x
      by_cases hlen : r1.length = i.length
      · simp [many0Go, hpi, hlen] at h
      · cases hgo : many0Go p n r1 with
        | none => simp [many0Go, hpi, hlen, hgo] at h
        | some y =>
          obtain ⟨r2, rest⟩ := y
          simp [many0Go, hpi, hlen, hgo] at h
          rcases h with ⟨rfl, -⟩
          exact suffix_rem ((ih r1 _ _ hgo).1.trans (hp i _ _ hpi).1)

theorem shrinks_many0 {p : Parser α} (hp : Shrinks p) : Shrinks (many0 p) := by
  intro i r v h
  exact shrinks_many0Go hp (i.length + 1) i r v h

theorem shrinks_many1 {p : Parser α} (hp : Shrinks p) : Shrinks (many1 p) := by
  intro i r v h
  cases hpi : p i with
  | none => simp [many1, hpi] at h
  | some x =>
    obtain ⟨r1, a⟩ := x
    cases hgo : many0Go p (r1.length + 1) r1 with
    | none => simp [many1, hpi, hgo] at h
    | some y =>
      obtain ⟨r2, rest⟩ := y
      simp [many1, hpi, hgo] at h
      rcases h with ⟨rfl, -⟩
      exact suffix_rem ((shrinks_many0Go hp _ r1 _ _ hgo).1.trans (hp i _ _ hpi).1)

theorem shrinks_sepList0Go {sep : Parser γ} {p : Parser α}
    (hsep : Shrinks sep) (hp : Shrinks p) : ∀ n, Shrinks (sepList0Go sep p n) := by
  intro n
  induction n with
  | zero => intro i r v h; simp [sepList0Go] at h
  | succ n ih =>
    intro i r v h
    cases hsi : sep i with
    | none =>
      simp [sepList0Go, hsi] at h
      rcases h with ⟨rfl, -⟩
      exact suffix_rem (List.suffix_refl _)
    | some x =>
      obtain ⟨i1, s⟩ := x
      by_cases hlen : i1.length = i.length
      · simp [sepList0Go, hsi, hlen] at h
      · cases hpi : p i1 with
        | none =>
          simp [sepList0Go, hsi, hlen, hpi] at h
          rcases h with ⟨rfl, -⟩
          exact suffix_rem (List.suffix_refl _)
        | some y =>
          obtain ⟨i2, a⟩ := y
          cases hgo : sepList0Go sep p n i2 with
          | none => simp [sepList0Go, hsi, hlen, hpi, hgo] at h
          | some z =>
            obtain ⟨r2, rest⟩ := z
            simp [sepList0Go, hsi, hlen, hpi, hgo] at h
            rcases h with ⟨rfl, -⟩
            exact suffix_rem (((ih i2 _ _ hgo).1.trans
              (hp i1 _ _ hpi).1).trans (hsep i _ _ hsi).1)

theorem shrinks_separatedList0 {sep : Parser γ} {p : Parser α}
    (hsep : Shrinks sep) (hp : Shrinks p) : Shrinks (separatedList0 sep p) := by
  intro i r v h
  cases hpi : p i with
  | none =>
    simp [separatedList0, hpi] at h
    rcases h with ⟨rfl, -⟩
    exact suffix_rem (List.suffix_refl _)
  | some x =>
    obtain ⟨i1, a⟩ := x
    cases hgo : sepList0Go sep p (i1.length + 1) i1 with
    | none => simp [separatedList0, hpi, hgo] at h
    | some y =>
      obtain ⟨r2, rest⟩ := y
      simp [separatedList0, hpi, hgo] at h
      rcases h with ⟨rfl, -⟩
      exact suffix_rem ((shrinks_sepList0Go hsep hp _ i1 _ _ hgo).1.trans
        (hp i _ _ hpi).1)


/-! ## Remainder-suffix invariant (per-parser instances) -/

theorem shrinks_Literal : Shrinks Literal.parse := by
  unfold Literal.parse
  repeat
    first
    | exact shrinks_satisfy _
    | exact shrinks_tag _
    | exact shrinks_takeWhileP _
    | exact shrinks_takeWhile1P _
    | exact shrinks_takeTill _
    | exact shrinks_takeUntil _
    | apply shrinks_pmap
    | apply shrinks_mapRes
    | apply shrinks_ppair
    | apply shrinks_popt
    | apply shrinks_alt2
    | apply shrinks_recognize
    | apply shrinks_many0
    | apply shrinks_many1
    | apply shrinks_separatedList0

theorem shrinks_Identifier : Shrinks Identifier.parse := by
  unfold Identifier.parse
  repeat
    first
    | exact shrinks_satisfy _
    | exact shrinks_tag _
    | exact shrinks_takeWhileP _
    | exact shrinks_takeWhile1P _
    | exact shrinks_takeTill _
    | exact shrinks_takeUntil _
    | apply shrinks_pmap
    | apply shrinks_mapRes
    | apply shrinks_ppair
    | apply shrinks_popt
    | apply shrinks_alt2
    | apply shrinks_recognize
    | apply shrinks_many0
    | apply shrinks_many1
    | apply shrinks_separatedList0

theorem shrinks_ListSeparator : Shrinks ListSeparator.parse := by
  unfold ListSeparator.parse
  repeat
    first
    | exact shrinks_satisfy _
    | exact shrinks_tag _
    | exact shrinks_takeWhileP _
    | exact shrinks_takeWhile1P _
    | exact shrinks_takeTill _
    | exact shrinks_takeUntil _
    | apply shrinks_pmap
    | apply shrinks_mapRes
    | apply shrinks_ppair
    | apply shrinks_popt
    | apply shrinks_alt2
    | apply shrinks_recognize
    | apply shrinks_many0
    | apply shrinks_many1
    | apply shrinks_separatedList0

theorem shrinks_Comment : Shrinks Comment.parse := by
  unfold Comment.parse
  repeat
    first
    | exact shrinks_satisfy _
    | exact shrinks_tag _
    | exact shrinks_takeWhileP _
    | exact shrinks_takeWhile1P _
    | exact shrinks_takeTill _
    | exact shrinks_takeUntil _
    | apply shrinks_pmap
    | apply shrinks_mapRes
    | apply shrinks_ppair
    | apply shrinks_popt
    | apply shrinks_alt2
    | apply shrinks_recognize
    | apply shrinks_many0
    | apply shrinks_many1
    | apply shrinks_separatedList0

theorem shrinks_Separator : Shrinks Separator.parse := by
  unfold Separator.parse
  repeat
    first
    | exact shrinks_Comment
    | exact shrinks_satisfy _
    | exact shrinks_tag _
    | exact shrinks_takeWhileP _
    | exact shrinks_takeWhile1P _
    | exact shrinks_takeTill _
    | exact shrinks_takeUntil _
    | apply shrinks_pmap
    | apply shrinks_mapRes
    | apply shrinks_ppair
    | apply shrinks_popt
    | apply shrinks_alt2
    | apply shrinks_recognize
    | apply shrinks_many0
    | apply shrinks_many1
    | apply shrinks_separatedList0

theorem shrinks_IntConstant : Shrinks IntConstant.parse := by
  unfold IntConstant.parse
  repeat
    first
    | exact shrinks_satisfy _
    | exact shrinks_tag _
    | exact shrinks_takeWhileP _
    | exact shrinks_takeWhile1P _
    | exact shrinks_takeTill _
    | exact shrinks_takeUntil _
    | apply shrinks_pmap
    | apply shrinks_mapRes
    | apply shrinks_ppair
    | apply shrinks_popt
    | apply shrinks_alt2
    | apply shrinks_recognize
    | apply shrinks_many0
    | apply shrinks_many1
    | apply shrinks_separatedList0

theorem shrinks_doubleRecognizer : Shrinks doubleRecognizer := by
  unfold doubleRecognizer
  repeat
    first
    | exact shrinks_IntConstant
    | exact shrinks_satisfy _
    | exact shrinks_tag _
    | exact shrinks_takeWhileP _
    | exact shrinks_takeWhile1P _
    | exact shrinks_takeTill _
    | exact shrinks_takeUntil _
    | apply shrinks_pmap
    | apply shrinks_mapRes
    | apply shrinks_ppair
    | apply shrinks_popt
    | apply shrinks_alt2
    | apply shrinks_recognize
    | apply shrinks_many0
    | apply shrinks_many1
    | apply shrinks_separatedList0

theorem shrinks_DoubleConstant : Shrinks DoubleConstant.parse := by
  unfold DoubleConstant.parse
  repeat
    first
    | exact shrinks_doubleRecognizer
    | exact shrinks_satisfy _
    | exact shrinks_tag _
    | exact shrinks_takeWhileP _
    | exact shrinks_takeWhile1P _
    | exact shrinks_takeTill _
    | exact shrinks_takeUntil _
    | apply shrinks_pmap
    | apply shrinks_mapRes
    | apply shrinks_ppair
    | apply shrinks_popt
    | apply shrinks_alt2
    | apply shrinks_recognize
    | apply shrinks_many0
    | apply shrinks_many1
    | apply shrinks_separatedList0

theorem shrinks_DoubleConstant2 : Shrinks DoubleConstant.parse2 := by
  unfold DoubleConstant.parse2
  repeat
    first
    | exact shrinks_doubleRecognizer
    | exact shrinks_satisfy _
    | exact shrinks_tag _
    | exact shrinks_takeWhileP _
    | exact shrinks_takeWhile1P _
    | exact shrinks_takeTill _
    | exact shrinks_takeUntil _
    | apply shrinks_pmap
    | apply shrinks_mapRes
    | apply shrinks_ppair
    | apply shrinks_popt
    | apply shrinks_alt2
    | apply shrinks_recognize
    | apply shrinks_many0
    | apply shrinks_many1
    | apply shrinks_separatedList0

theorem shrinks_pls : Shrinks parse_list_separator := by
  unfold parse_list_separator
  repeat
    first
    | exact shrinks_Separator
    | exact shrinks_ListSeparator
    | exact shrinks_satisfy _
    | exact shrinks_tag _
    | exact shrinks_takeWhileP _
    | exact shrinks_takeWhile1P _
    | exact shrinks_takeTill _
    | exact shrinks_takeUntil _
    | apply shrinks_pmap
    | apply shrinks_mapRes
    | apply shrinks_ppair
    | apply shrinks_popt
    | apply shrinks_alt2
    | apply shrinks_recognize
    | apply shrinks_many0
    | apply shrinks_many1
    | apply shrinks_separatedList0

theorem shrinks_constGo :
    ∀ n, Shrinks (constValueGo n) ∧ Shrinks (constListGo n) ∧ Shrinks (constMapGo n) := by
  intro n
  induction n with
  | zero =>
    refine ⟨?_, ?_, ?_⟩ <;> (intro i r v h; simp [constValueGo, constListGo, constMapGo] at h)
  | succ n ih =>
    obtain ⟨ihv, ihl, ihm⟩ := ih
    refine ⟨?_, ?_, ?_⟩
    · unfold constValueGo
      repeat
        first
        | exact ihv
        | exact ihl
        | exact ihm
        | exact shrinks_Identifier
        | exact shrinks_Literal
        | exact shrinks_DoubleConstant2
        | exact shrinks_IntConstant
        | exact shrinks_Separator
        | exact shrinks_pls
        | exact shrinks_satisfy _
        | exact shrinks_tag _
        | exact shrinks_takeWhileP _
        | exact shrinks_takeWhile1P _
        | exact shrinks_takeTill _
        | exact shrinks_takeUntil _
        | apply shrinks_pmap
        | apply shrinks_mapRes
        | apply shrinks_ppair
        | apply shrinks_popt
        | apply shrinks_alt2
        | apply shrinks_recognize
        | apply shrinks_many0
        | apply shrinks_many1
        | apply shrinks_separatedList0
    · unfold constListGo
      repeat
        first
        | exact ihv
        | exact ihl
        | exact ihm
        | exact shrinks_Identifier
        | exact shrinks_Literal
        | exact shrinks_DoubleConstant2
        | exact shrinks_IntConstant
        | exact shrinks_Separator
        | exact shrinks_pls
        | exact shrinks_satisfy _
        | exact shrinks_tag _
        | exact shrinks_takeWhileP _
        | exact shrinks_takeWhile1P _
        | exact shrinks_takeTill _
        | exact shrinks_takeUntil _
        | apply shrinks_pmap
        | apply shrinks_mapRes
        | apply shrinks_ppair
        | apply shrinks_popt
        | apply shrinks_alt2
        | apply shrinks_recognize
        | apply shrinks_many0
        | apply shrinks_many1
        | apply shrinks_separatedList0
    · unfold constMapGo
      repeat
        first
        | exact ihv
        | exact ihl
        | exact ihm
        | exact shrinks_Identifier
        | exact shrinks_Literal
        | exact shrinks_DoubleConstant2
        | exact shrinks_IntConstant
        | exact shrinks_Separator
        | exact shrinks_pls
        | exact shrinks_satisfy _
        | exact shrinks_tag _
        | exact shrinks_takeWhileP _
        | exact shrinks_takeWhile1P _
        | exact shrinks_takeTill _
        | exact shrinks_takeUntil _
        | apply shrinks_pmap
        | apply shrinks_mapRes
        | apply shrinks_ppair
        | apply shrinks_popt
        | apply shrinks_alt2
        | apply shrinks_recognize
        | apply shrinks_many0
        | apply shrinks_many1
        | apply shrinks_separatedList0

theorem shrinks_ConstValue : Shrinks ConstValue.parse := by
  intro i r v h
  exact (shrinks_constGo (2 * i.length + 2)).1 i r v h

theorem shrinks_ConstList : Shrinks ConstList.parse := by
  intro i r v h
  exact (shrinks_constGo (2 * i.length + 2)).2.1 i r v h

theorem shrinks_ConstMap : Shrinks ConstMap.parse := by
  intro i r v h
  exact (shrinks_constGo (2 * i.length + 2)).2.2 i r v h

theorem shrinks_CppType : Shrinks CppType.parse := by
  unfold CppType.parse
  repeat
    first
    | exact shrinks_Separator
    | exact shrinks_Literal
    | exact shrinks_satisfy _
    | exact shrinks_tag _
    | exact shrinks_takeWhileP _
    | exact shrinks_takeWhile1P _
    | exact shrinks_takeTill _
    | exact shrinks_takeUntil _
    | apply shrinks_pmap
    | apply shrinks_mapRes
    | apply shrinks_ppair
    | apply shrinks_popt
    | apply shrinks_alt2
    | apply shrinks_recognize
    | apply shrinks_many0
    | apply shrinks_many1
    | apply shrinks_separatedList0

theorem shrinks_base_type : Shrinks FieldType.parse_base_type := by
  unfold FieldType.parse_base_type
  repeat
    first
    | exact shrinks_satisfy _
    | exact shrinks_tag _
    | exact shrinks_takeWhileP _
    | exact shrinks_takeWhile1P _
    | exact shrinks_takeTill _
    | exact shrinks_takeUntil _
    | apply shrinks_pmap
    | apply shrinks_mapRes
    | apply shrinks_ppair
    | apply shrinks_popt
    | apply shrinks_alt2
    | apply shrinks_recognize
    | apply shrinks_many0
    | apply shrinks_many1
    | apply shrinks_separatedList0

theorem shrinks_identifier_type : Shrinks FieldType.parse_identifier_type := by
  unfold FieldType.parse_identifier_type
  repeat
    first
    | exact shrinks_Identifier
    | exact shrinks_satisfy _
    | exact shrinks_tag _
    | exact shrinks_takeWhileP _
    | exact shrinks_takeWhile1P _
    | exact shrinks_takeTill _
    | exact shrinks_takeUntil _
    | apply shrinks_pmap
    | apply shrinks_mapRes
    | apply shrinks_ppair
    | apply shrinks_popt
    | apply shrinks_alt2
    | apply shrinks_recognize
    | apply shrinks_many0
    | apply shrinks_many1
    | apply shrinks_separatedList0

theorem shrinks_container_with {p : Parser FieldType} (hp : Shrinks p) :
    Shrinks (parse_container_type_with p) := by
  unfold parse_container_type_with
  repeat
    first
    | exact hp
    | exact shrinks_identifier_type
    | exact shrinks_base_type
    | exact shrinks_Separator
    | exact shrinks_CppType
    | exact shrinks_Identifier
    | exact shrinks_satisfy _
    | exact shrinks_tag _
    | exact shrinks_takeWhileP _
    | exact shrinks_takeWhile1P _
    | exact shrinks_takeTill _
    | exact shrinks_takeUntil _
    | apply shrinks_pmap
    | apply shrinks_mapRes
    | apply shrinks_ppair
    | apply shrinks_popt
    | apply shrinks_alt2
    | apply shrinks_recognize
    | apply shrinks_many0
    | apply shrinks_many1
    | apply shrinks_separatedList0

theorem shrinks_fieldTypeGo : ∀ n, Shrinks (fieldTypeGo n) := by
  intro n
  induction n with
  | zero => intro i r v h; simp [fieldTypeGo] at h
  | succ n ih =>
    unfold fieldTypeGo
    repeat
      first
      | exact shrinks_container_with ih
      | exact shrinks_base_type
      | exact shrinks_identifier_type
      | exact shrinks_satisfy _
      | exact shrinks_tag _
      | exact shrinks_takeWhileP _
      | exact shrinks_takeWhile1P _
      | exact shrinks_takeTill _
      | exact shrinks_takeUntil _
      | apply shrinks_pmap
      | apply shrinks_mapRes
      | apply shrinks_ppair
      | apply shrinks_popt
      | apply shrinks_alt2
      | apply shrinks_recognize
      | apply shrinks_many0
      | apply shrinks_many1
      | apply shrinks_separatedList0

theorem shrinks_FieldType : Shrinks FieldType.parse := by
  intro i r v h
  exact shrinks_fieldTypeGo (i.length + 1) i r v h

theorem shrinks_container_type : Shrinks FieldType.parse_container_type := by
  intro i r v h
  exact shrinks_container_with (shrinks_fieldTypeGo (i.length + 1)) i r v h

theorem shrinks_Field : Shrinks Field.parse := by
  unfold Field.parse
  repeat
    first
    | exact shrinks_Separator
    | exact shrinks_Identifier
    | exact shrinks_Literal
    | exact shrinks_IntConstant
    | exact shrinks_ConstValue
    | exact shrinks_FieldType
    | exact shrinks_ListSeparator
    | exact shrinks_pls
    | exact shrinks_CppType
    | exact shrinks_base_type
    | exact shrinks_container_type
    | exact shrinks_satisfy _
    | exact shrinks_tag _
    | exact shrinks_takeWhileP _
    | exact shrinks_takeWhile1P _
    | exact shrinks_takeTill _
    | exact shrinks_takeUntil _
    | apply shrinks_pmap
    | apply shrinks_mapRes
    | apply shrinks_ppair
    | apply shrinks_popt
    | apply shrinks_alt2
    | apply shrinks_recognize
    | apply shrinks_many0
    | apply shrinks_many1
    | apply shrinks_separatedList0

theorem shrinks_Function : Shrinks Function.parse := by
  unfold Function.parse
  repeat
    first
    | exact shrinks_Separator
    | exact shrinks_Identifier
    | exact shrinks_Literal
    | exact shrinks_IntConstant
    | exact shrinks_ConstValue
    | exact shrinks_FieldType
    | exact shrinks_ListSeparator
    | exact shrinks_pls
    | exact shrinks_CppType
    | exact shrinks_base_type
    | exact shrinks_container_type
    | exact shrinks_Field
    | exact shrinks_satisfy _
    | exact shrinks_tag _
    | exact shrinks_takeWhileP _
    | exact shrinks_takeWhile1P _
    | exact shrinks_takeTill _
    | exact shrinks_takeUntil _
    | apply shrinks_pmap
    | apply shrinks_mapRes
    | apply shrinks_ppair
    | apply shrinks_popt
    | apply shrinks_alt2
    | apply shrinks_recognize
    | apply shrinks_many0
    | apply shrinks_many1
    | apply shrinks_separatedList0

theorem shrinks_Const : Shrinks Const.parse := by
  unfold Const.parse
  repeat
    first
    | exact shrinks_Separator
    | exact shrinks_Identifier
    | exact shrinks_Literal
    | exact shrinks_IntConstant
    | exact shrinks_ConstValue
    | exact shrinks_FieldType
    | exact shrinks_ListSeparator
    | exact shrinks_pls
    | exact shrinks_CppType
    | exact shrinks_base_type
    | exact shrinks_container_type
    | exact shrinks_satisfy _
    | exact shrinks_tag _
    | exact shrinks_takeWhileP _
    | exact shrinks_takeWhile1P _
    | exact shrinks_takeTill _
    | exact shrinks_takeUntil _
    | apply shrinks_pmap
    | apply shrinks_mapRes
    | apply shrinks_ppair
    | apply shrinks_popt
    | apply shrinks_alt2
    | apply shrinks_recognize
    | apply shrinks_many0
    | apply shrinks_many1
    | apply shrinks_separatedList0

theorem shrinks_Typedef : Shrinks Typedef.parse := by
  unfold Typedef.parse
  repeat
    first
    | exact shrinks_Separator
    | exact shrinks_Identifier
    | exact shrinks_Literal
    | exact shrinks_IntConstant
    | exact shrinks_ConstValue
    | exact shrinks_FieldType
    | exact shrinks_ListSeparator
    | exact shrinks_pls
    | exact shrinks_CppType
    | exact shrinks_base_type
    | exact shrinks_container_type
    | exact shrinks_satisfy _
    | exact shrinks_tag _
    | exact shrinks_takeWhileP _
    | exact shrinks_takeWhile1P _
    | exact shrinks_takeTill _
    | exact shrinks_takeUntil _
    | apply shrinks_pmap
    | apply shrinks_mapRes
    | apply shrinks_ppair
    | apply shrinks_popt
    | apply shrinks_alt2
    | apply shrinks_recognize
    | apply shrinks_many0
    | apply shrinks_many1
    | apply shrinks_separatedList0

theorem shrinks_EnumValue : Shrinks EnumValue.parse := by
  unfold EnumValue.parse
  repeat
    first
    | exact shrinks_Separator
    | exact shrinks_Identifier
    | exact shrinks_Literal
    | exact shrinks_IntConstant
    | exact shrinks_ConstValue
    | exact shrinks_FieldType
    | exact shrinks_ListSeparator
    | exact shrinks_pls
    | exact shrinks_CppType
    | exact shrinks_base_type
    | exact shrinks_container_type
    | exact shrinks_satisfy _
    | exact shrinks_tag _
    | exact shrinks_takeWhileP _
    | exact shrinks_takeWhile1P _
    | exact shrinks_takeTill _
    | exact shrinks_takeUntil _
    | apply shrinks_pmap
    | apply shrinks_mapRes
    | apply shrinks_ppair
    | apply shrinks_popt
    | apply shrinks_alt2
    | apply shrinks_recognize
    | apply shrinks_many0
    | apply shrinks_many1
    | apply shrinks_separatedList0

theorem shrinks_Enum : Shrinks Enum.parse := by
  unfold Enum.parse
  repeat
    first
    | exact shrinks_Separator
    | exact shrinks_Identifier
    | exact shrinks_Literal
    | exact shrinks_IntConstant
    | exact shrinks_ConstValue
    | exact shrinks_FieldType
    | exact shrinks_ListSeparator
    | exact shrinks_pls
    | exact shrinks_CppType
    | exact shrinks_base_type
    | exact shrinks_container_type
    | exact shrinks_EnumValue
    | exact shrinks_satisfy _
    | exact shrinks_tag _
    | exact shrinks_takeWhileP _
    | exact shrinks_takeWhile1P _
    | exact shrinks_takeTill _
    | exact shrinks_takeUntil _
    | apply shrinks_pmap
    | apply shrinks_mapRes
    | apply shrinks_ppair
    | apply shrinks_popt
    | apply shrinks_alt2
    | apply shrinks_recognize
    | apply shrinks_many0
    | apply shrinks_many1
    | apply shrinks_separatedList0

theorem shrinks_Struct : Shrinks Struct.parse := by
  unfold Struct.parse
  repeat
    first
    | exact shrinks_Separator
    | exact shrinks_Identifier
    | exact shrinks_Literal
    | exact shrinks_IntConstant
    | exact shrinks_ConstValue
    | exact shrinks_FieldType
    | exact shrinks_ListSeparator
    | exact shrinks_pls
    | exact shrinks_CppType
    | exact shrinks_base_type
    | exact shrinks_container_type
    | exact shrinks_Field
    | exact shrinks_satisfy _
    | exact shrinks_tag _
    | exact shrinks_takeWhileP _
    | exact shrinks_takeWhile1P _
    | exact shrinks_takeTill _
    | exact shrinks_takeUntil _
    | apply shrinks_pmap
    | apply shrinks_mapRes
    | apply shrinks_ppair
    | apply shrinks_popt
    | apply shrinks_alt2
    | apply shrinks_recognize
    | apply shrinks_many0
    | apply shrinks_many1
    | apply shrinks_separatedList0

theorem shrinks_Union : Shrinks Union.parse := by
  unfold Union.parse
  repeat
    first
    | exact shrinks_Separator
    | exact shrinks_Identifier
    | exact shrinks_Literal
    | exact shrinks_IntConstant
    | exact shrinks_ConstValue
    | exact shrinks_FieldType
    | exact shrinks_ListSeparator
    | exact shrinks_pls
    | exact shrinks_CppType
    | exact shrinks_base_type
    | exact shrinks_container_type
    | exact shrinks_Field
    | exact shrinks_satisfy _
    | exact shrinks_tag _
    | exact shrinks_takeWhileP _
    | exact shrinks_takeWhile1P _
    | exact shrinks_takeTill _
    | exact shrinks_takeUntil _
    | apply shrinks_pmap
    | apply shrinks_mapRes
    | apply shrinks_ppair
    | apply shrinks_popt
    | apply shrinks_alt2
    | apply shrinks_recognize
    | apply shrinks_many0
    | apply shrinks_many1
    | apply shrinks_separatedList0

theorem shrinks_Exception : Shrinks Exception.parse := by
  unfold Exception.parse
  repeat
    first
    | exact shrinks_Separator
    | exact shrinks_Identifier
    | exact shrinks_Literal
    | exact shrinks_IntConstant
    | exact shrinks_ConstValue
    | exact shrinks_FieldType
    | exact shrinks_ListSeparator
    | exact shrinks_pls
    | exact shrinks_CppType
    | exact shrinks_base_type
    | exact shrinks_container_type
    | exact shrinks_Field
    | exact shrinks_satisfy _
    | exact shrinks_tag _
    | exact shrinks_takeWhileP _
    | exact shrinks_takeWhile1P _
    | exact shrinks_takeTill _
    | exact shrinks_takeUntil _
    | apply shrinks_pmap
    | apply shrinks_mapRes
    | apply shrinks_ppair
    | apply shrinks_popt
    | apply shrinks_alt2
    | apply shrinks_recognize
    | apply shrinks_many0
    | apply shrinks_many1
    | apply shrinks_separatedList0

theorem shrinks_Service : Shrinks Service.parse := by
  unfold Service.parse
  repeat
    first
    | exact shrinks_Separator
    | exact shrinks_Identifier
    | exact shrinks_Literal
    | exact shrinks_IntConstant
    | exact shrinks_ConstValue
    | exact shrinks_FieldType
    | exact shrinks_ListSeparator
    | exact shrinks_pls
    | exact shrinks_CppType
    | exact shrinks_base_type
    | exact shrinks_container_type
    | exact shrinks_Field
    | exact shrinks_Function
    | exact shrinks_satisfy _
    | exact shrinks_tag _
    | exact shrinks_takeWhileP _
    | exact shrinks_takeWhile1P _
    | exact shrinks_takeTill _
    | exact shrinks_takeUntil _
    | apply shrinks_pmap
    | apply shrinks_mapRes
    | apply shrinks_ppair
    | apply shrinks_popt
    | apply shrinks_alt2
    | apply shrinks_recognize
    | apply shrinks_many0
    | apply shrinks_many1
    | apply shrinks_separatedList0

theorem shrinks_Include : Shrinks Include.parse := by
  unfold Include.parse
  repeat
    first
    | exact shrinks_Separator
    | exact shrinks_Literal
    | exact shrinks_satisfy _
    | exact shrinks_tag _
    | exact shrinks_takeWhileP _
    | exact shrinks_takeWhile1P _
    | exact shrinks_takeTill _
    | exact shrinks_takeUntil _
    | apply shrinks_pmap
    | apply shrinks_mapRes
    | apply shrinks_ppair
    | apply shrinks_popt
    | apply shrinks_alt2
    | apply shrinks_recognize
    | apply shrinks_many0
    | apply shrinks_many1
    | apply shrinks_separatedList0

theorem shrinks_CppInclude : Shrinks CppInclude.parse := by
  unfold CppInclude.parse
  repeat
    first
    | exact shrinks_Separator
    | exact shrinks_Literal
    | exact shrinks_satisfy _
    | exact shrinks_tag _
    | exact shrinks_takeWhileP _
    | exact shrinks_takeWhile1P _
    | exact shrinks_takeTill _
    | exact shrinks_takeUntil _
    | apply shrinks_pmap
    | apply shrinks_mapRes
    | apply shrinks_ppair
    | apply shrinks_popt
    | apply shrinks_alt2
    | apply shrinks_recognize
    | apply shrinks_many0
    | apply shrinks_many1
    | apply shrinks_separatedList0

theorem shrinks_NamespaceScope : Shrinks NamespaceScope.parse := by
  unfold NamespaceScope.parse
  repeat
    first
    | exact shrinks_satisfy _
    | exact shrinks_tag _
    | exact shrinks_takeWhileP _
    | exact shrinks_takeWhile1P _
    | exact shrinks_takeTill _
    | exact shrinks_takeUntil _
    | apply shrinks_pmap
    | apply shrinks_mapRes
    | apply shrinks_ppair
    | apply shrinks_popt
    | apply shrinks_alt2
    | apply shrinks_recognize
    | apply shrinks_many0
    | apply shrinks_many1
    | apply shrinks_separatedList0

theorem shrinks_Namespace : Shrinks Namespace.parse := by
  unfold Namespace.parse
  repeat
    first
    | exact shrinks_Separator
    | exact shrinks_NamespaceScope
    | exact shrinks_Identifier
    | exact shrinks_satisfy _
    | exact shrinks_tag _
    | exact shrinks_takeWhileP _
    | exact shrinks_takeWhile1P _
    | exact shrinks_takeTill _
    | exact shrinks_takeUntil _
    | apply shrinks_pmap
    | apply shrinks_mapRes
    | apply shrinks_ppair
    | apply shrinks_popt
    | apply shrinks_alt2
    | apply shrinks_recognize
    | apply shrinks_many0
    | apply shrinks_many1
    | apply shrinks_separatedList0

theorem shrinks_topLevelAlt : Shrinks topLevelAlt := by
  unfold topLevelAlt
  repeat
    first
    | exact shrinks_Include
    | exact shrinks_CppInclude
    | exact shrinks_Namespace
    | exact shrinks_Typedef
    | exact shrinks_Const
    | exact shrinks_Enum
    | exact shrinks_Struct
    | exact shrinks_Union
    | exact shrinks_Exception
    | exact shrinks_Service
    | exact shrinks_satisfy _
    | exact shrinks_tag _
    | exact shrinks_takeWhileP _
    | exact shrinks_takeWhile1P _
    | exact shrinks_takeTill _
    | exact shrinks_takeUntil _
    | apply shrinks_pmap
    | apply shrinks_mapRes
    | apply shrinks_ppair
    | apply shrinks_popt
    | apply shrinks_alt2
    | apply shrinks_recognize
    | apply shrinks_many0
    | apply shrinks_many1
    | apply shrinks_separatedList0

theorem shrinks_documentInner :
    Shrinks (delimited (popt Separator.parse) topLevelAlt (popt Separator.parse)) := by
  repeat
    first
    | exact shrinks_Separator
    | exact shrinks_topLevelAlt
    | exact shrinks_satisfy _
    | exact shrinks_tag _
    | exact shrinks_takeWhileP _
    | exact shrinks_takeWhile1P _
    | exact shrinks_takeTill _
    | exact shrinks_takeUntil _
    | apply shrinks_pmap
    | apply shrinks_mapRes
    | apply shrinks_ppair
    | apply shrinks_popt
    | apply shrinks_alt2
    | apply shrinks_recognize
    | apply shrinks_many0
    | apply shrinks_many1
    | apply shrinks_separatedList0

theorem shrinks_Document : Shrinks Document.parse := by
  intro i r v h
  cases hm : many0 (delimited (popt Separator.parse) topLevelAlt (popt Separator.parse)) i with
  | none => simp [Document.parse, hm] at h
  | some x =>
    obtain ⟨r1, items⟩ := x
    simp [Document.parse, hm] at h
    rcases h with ⟨rfl, -⟩
    exact shrinks_many0 shrinks_documentInner i _ _ hm

/-! ## Strict consumption, and totality of the document loop -/

theorem consumes_pmap (f : α → β) {p : Parser α} (hp : Consumes p) : Consumes (pmap f p) := by
  intro i r v h
  cases hpi : p i with
  | none => simp [pmap, hpi] at h
  | some x =>
    obtain ⟨r1, a⟩ := x
    simp [pmap, hpi] at h
    rcases h with ⟨rfl, -⟩
    exact hp i _ _ hpi

theorem consumes_ppair_left {p : Parser α} {q : Parser β}
    (hp : Consumes p) (hq : Shrinks q) : Consumes (ppair p q) := by
  intro i r v h
  cases hpi : p i with
  | none => simp [ppair, hpi] at h
  | some x =>
    obtain ⟨r1, a⟩ := x
    cases hqi : q r1 with
    | none => simp [ppair, hpi, hqi] at h
    | some y =>
      obtain ⟨r2, b⟩ := y
      simp [ppair, hpi, hqi] at h
      rcases h with ⟨rfl, -⟩
      exact lt_of_le_of_lt (hq r1 _ _ hqi).2 (hp i _ _ hpi)

theorem consumes_ppair_right {p : Parser α} {q : Parser β}
    (hp : Shrinks p) (hq : Consumes q) : Consumes (ppair p q) := by
  intro i r v h
  cases hpi : p i with
  | none => simp [ppair, hpi] at h
  | some x =>
    obtain ⟨r1, a⟩ := x
    cases hqi : q r1 with
    | none => simp [ppair, hpi, hqi] at h
    | some y =>
      obtain ⟨r2, b⟩ := y
      simp [ppair, hpi, hqi] at h
      rcases h with ⟨rfl, -⟩
      exact lt_of_lt_of_le (hq r1 _ _ hqi) (hp i _ _ hpi).2

theorem consumes_alt2 {p q : Parser α} (hp : Consumes p) (hq : Consumes q) :
    Consumes (alt2 p q) := by
  intro i r v h
  cases hpi : p i with
  | none => simp [alt2, hpi] at h; exact hq i r v h
  | some x =>
    simp [alt2, hpi] at h
    exact hp i r v (by rw [hpi, h])

theorem consumes_tag {t : List Char} (ht : t ≠ []) : Consumes (tag t) := by
  intro i r v h
  by_cases hpre : t.isPrefixOf i
  · simp [tag, hpre] at h
    rcases h with ⟨rfl, -⟩
    have hle : t.length ≤ i.length := (List.isPrefixOf_iff_prefix.mp hpre).length_le
    have ht0 : 0 < t.length := List.length_pos.mpr ht
    simp [List.length_drop]
    omega
  · simp [tag, hpre] at h

theorem consumes_Include : Consumes Include.parse := by
  unfold Include.parse
  repeat
    first
    | exact consumes_tag (by simp)
    | apply consumes_pmap
    | apply consumes_ppair_left
    | exact shrinks_Separator
    | exact shrinks_Identifier
    | exact shrinks_Literal
    | exact shrinks_IntConstant
    | exact shrinks_ConstValue
    | exact shrinks_FieldType
    | exact shrinks_ListSeparator
    | exact shrinks_pls
    | exact shrinks_CppType
    | exact shrinks_base_type
    | exact shrinks_container_type
    | exact shrinks_Field
    | exact shrinks_Function
    | exact shrinks_EnumValue
    | exact shrinks_satisfy _
    | exact shrinks_tag _
    | exact shrinks_takeWhileP _
    | exact shrinks_takeWhile1P _
    | exact shrinks_takeTill _
    | exact shrinks_takeUntil _
    | apply shrinks_pmap
    | apply shrinks_mapRes
    | apply shrinks_ppair
    | apply shrinks_popt
    | apply shrinks_alt2
    | apply shrinks_recognize
    | apply shrinks_many0
    | apply shrinks_many1
    | apply shrinks_separatedList0

theorem consumes_CppInclude : Consumes CppInclude.parse := by
  unfold CppInclude.parse
  repeat
    first
    | exact consumes_tag (by simp)
    | apply consumes_pmap
    | apply consumes_ppair_left
    | exact shrinks_Separator
    | exact shrinks_Identifier
    | exact shrinks_Literal
    | exact shrinks_IntConstant
    | exact shrinks_ConstValue
    | exact shrinks_FieldType
    | exact shrinks_ListSeparator
    | exact shrinks_pls
    | exact shrinks_CppType
    | exact shrinks_base_type
    | exact shrinks_container_type
    | exact shrinks_Field
    | exact shrinks_Function
    | exact shrinks_EnumValue
    | exact shrinks_satisfy _
    | exact shrinks_tag _
    | exact shrinks_takeWhileP _
    | exact shrinks_takeWhile1P _
    | exact shrinks_takeTill _
    | exact shrinks_takeUntil _
    | apply shrinks_pmap
    | apply shrinks_mapRes
    | apply shrinks_ppair
    | apply shrinks_popt
    | apply shrinks_alt2
    | apply shrinks_recognize
    | apply shrinks_many0
    | apply shrinks_many1
    | apply shrinks_separatedList0

theorem consumes_Namespace : Consumes Namespace.parse := by
  unfold Namespace.parse
  repeat
    first
    | exact consumes_tag (by simp)
    | apply consumes_pmap
    | apply consumes_ppair_left
    | exact shrinks_Separator
    | exact shrinks_Identifier
    | exact shrinks_Literal
    | exact shrinks_IntConstant
    | exact shrinks_ConstValue
    | exact shrinks_FieldType
    | exact shrinks_ListSeparator
    | exact shrinks_pls
    | exact shrinks_CppType
    | exact shrinks_base_type
    | exact shrinks_container_type
    | exact shrinks_Field
    | exact shrinks_Function
    | exact shrinks_EnumValue
    | exact shrinks_satisfy _
    | exact shrinks_tag _
    | exact shrinks_takeWhileP _
    | exact shrinks_takeWhile1P _
    | exact shrinks_takeTill _
    | exact shrinks_takeUntil _
    | apply shrinks_pmap
    | apply shrinks_mapRes
    | apply shrinks_ppair
    | apply shrinks_popt
    | apply shrinks_alt2
    | apply shrinks_recognize
    | apply shrinks_many0
    | apply shrinks_many1
    | apply shrinks_separatedList0

theorem consumes_Typedef : Consumes Typedef.parse := by
  unfold Typedef.parse
  repeat
    first
    | exact consumes_tag (by simp)
    | apply consumes_pmap
    | apply consumes_ppair_left
    | exact shrinks_Separator
    | exact shrinks_Identifier
    | exact shrinks_Literal
    | exact shrinks_IntConstant
    | exact shrinks_ConstValue
    | exact shrinks_FieldType
    | exact shrinks_ListSeparator
    | exact shrinks_pls
    | exact shrinks_CppType
    | exact shrinks_base_type
    | exact shrinks_container_type
    | exact shrinks_Field
    | exact shrinks_Function
    | exact shrinks_EnumValue
    | exact shrinks_satisfy _
    | exact shrinks_tag _
    | exact shrinks_takeWhileP _
    | exact shrinks_takeWhile1P _
    | exact shrinks_takeTill _
    | exact shrinks_takeUntil _
    | apply shrinks_pmap
    | apply shrinks_mapRes
    | apply shrinks_ppair
    | apply shrinks_popt
    | apply shrinks_alt2
    | apply shrinks_recognize
    | apply shrinks_many0
    | apply shrinks_many1
    | apply shrinks_separatedList0

theorem consumes_Const : Consumes Const.parse := by
  unfold Const.parse
  repeat
    first
    | exact consumes_tag (by simp)
    | apply consumes_pmap
    | apply consumes_ppair_left
    | exact shrinks_Separator
    | exact shrinks_Identifier
    | exact shrinks_Literal
    | exact shrinks_IntConstant
    | exact shrinks_ConstValue
    | exact shrinks_FieldType
    | exact shrinks_ListSeparator
    | exact shrinks_pls
    | exact shrinks_CppType
    | exact shrinks_base_type
    | exact shrinks_container_type
    | exact shrinks_Field
    | exact shrinks_Function
    | exact shrinks_EnumValue
    | exact shrinks_satisfy _
    | exact shrinks_tag _
    | exact shrinks_takeWhileP _
    | exact shrinks_takeWhile1P _
    | exact shrinks_takeTill _
    | exact shrinks_takeUntil _
    | apply shrinks_pmap
    | apply shrinks_mapRes
    | apply shrinks_ppair
    | apply shrinks_popt
    | apply shrinks_alt2
    | apply shrinks_recognize
    | apply shrinks_many0
    | apply shrinks_many1
    | apply shrinks_separatedList0

theorem consumes_Enum : Consumes Enum.parse := by
  unfold Enum.parse
  repeat
    first
    | exact consumes_tag (by simp)
    | apply consumes_pmap
    | apply consumes_ppair_left
    | exact shrinks_Separator
    | exact shrinks_Identifier
    | exact shrinks_Literal
    | exact shrinks_IntConstant
    | exact shrinks_ConstValue
    | exact shrinks_FieldType
    | exact shrinks_ListSeparator
    | exact shrinks_pls
    | exact shrinks_CppType
    | exact shrinks_base_type
    | exact shrinks_container_type
    | exact shrinks_Field
    | exact shrinks_Function
    | exact shrinks_EnumValue
    | exact shrinks_satisfy _
    | exact shrinks_tag _
    | exact shrinks_takeWhileP _
    | exact shrinks_takeWhile1P _
    | exact shrinks_takeTill _
    | exact shrinks_takeUntil _
    | apply shrinks_pmap
    | apply shrinks_mapRes
    | apply shrinks_ppair
    | apply shrinks_popt
    | apply shrinks_alt2
    | apply shrinks_recognize
    | apply shrinks_many0
    | apply shrinks_many1
    | apply shrinks_separatedList0

theorem consumes_Struct : Consumes Struct.parse := by
  unfold Struct.parse
  repeat
    first
    | exact consumes_tag (by simp)
    | apply consumes_pmap
    | apply consumes_ppair_left
    | exact shrinks_Separator
    | exact shrinks_Identifier
    | exact shrinks_Literal
    | exact shrinks_IntConstant
    | exact shrinks_ConstValue
    | exact shrinks_FieldType
    | exact shrinks_ListSeparator
    | exact shrinks_pls
    | exact shrinks_CppType
    | exact shrinks_base_type
    | exact shrinks_container_type
    | exact shrinks_Field
    | exact shrinks_Function
    | exact shrinks_EnumValue
    | exact shrinks_satisfy _
    | exact shrinks_tag _
    | exact shrinks_takeWhileP _
    | exact shrinks_takeWhile1P _
    | exact shrinks_takeTill _
    | exact shrinks_takeUntil _
    | apply shrinks_pmap
    | apply shrinks_mapRes
    | apply shrinks_ppair
    | apply shrinks_popt
    | apply shrinks_alt2
    | apply shrinks_recognize
    | apply shrinks_many0
    | apply shrinks_many1
    | apply shrinks_separatedList0

theorem consumes_Union : Consumes Union.parse := by
  unfold Union.parse
  repeat
    first
    | exact consumes_tag (by simp)
    | apply consumes_pmap
    | apply consumes_ppair_left
    | exact shrinks_Separator
    | exact shrinks_Identifier
    | exact shrinks_Literal
    | exact shrinks_IntConstant
    | exact shrinks_ConstValue
    | exact shrinks_FieldType
    | exact shrinks_ListSeparator
    | exact shrinks_pls
    | exact shrinks_CppType
    | exact shrinks_base_type
    | exact shrinks_container_type
    | exact shrinks_Field
    | exact shrinks_Function
    | exact shrinks_EnumValue
    | exact shrinks_satisfy _
    | exact shrinks_tag _
    | exact shrinks_takeWhileP _
    | exact shrinks_takeWhile1P _
    | exact shrinks_takeTill _
    | exact shrinks_takeUntil _
    | apply shrinks_pmap
    | apply shrinks_mapRes
    | apply shrinks_ppair
    | apply shrinks_popt
    | apply shrinks_alt2
    | apply shrinks_recognize
    | apply shrinks_many0
    | apply shrinks_many1
    | apply shrinks_separatedList0

theorem consumes_Exception : Consumes Exception.parse := by
  unfold Exception.parse
  repeat
    first
    | exact consumes_tag (by simp)
    | apply consumes_pmap
    | apply consumes_ppair_left
    | exact shrinks_Separator
    | exact shrinks_Identifier
    | exact shrinks_Literal
    | exact shrinks_IntConstant
    | exact shrinks_ConstValue
    | exact shrinks_FieldType
    | exact shrinks_ListSeparator
    | exact shrinks_pls
    | exact shrinks_CppType
    | exact shrinks_base_type
    | exact shrinks_container_type
    | exact shrinks_Field
    | exact shrinks_Function
    | exact shrinks_EnumValue
    | exact shrinks_satisfy _
    | exact shrinks_tag _
    | exact shrinks_takeWhileP _
    | exact shrinks_takeWhile1P _
    | exact shrinks_takeTill _
    | exact shrinks_takeUntil _
    | apply shrinks_pmap
    | apply shrinks_mapRes
    | apply shrinks_ppair
    | apply shrinks_popt
    | apply shrinks_alt2
    | apply shrinks_recognize
    | apply shrinks_many0
    | apply shrinks_many1
    | apply shrinks_separatedList0

theorem consumes_Service : Consumes Service.parse := by
  unfold Service.parse
  repeat
    first
    | exact consumes_tag (by simp)
    | apply consumes_pmap
    | apply consumes_ppair_left
    | exact shrinks_Separator
    | exact shrinks_Identifier
    | exact shrinks_Literal
    | exact shrinks_IntConstant
    | exact shrinks_ConstValue
    | exact shrinks_FieldType
    | exact shrinks_ListSeparator
    | exact shrinks_pls
    | exact shrinks_CppType
    | exact shrinks_base_type
    | exact shrinks_container_type
    | exact shrinks_Field
    | exact shrinks_Function
    | exact shrinks_EnumValue
    | exact shrinks_satisfy _
    | exact shrinks_tag _
    | exact shrinks_takeWhileP _
    | exact shrinks_takeWhile1P _
    | exact shrinks_takeTill _
    | exact shrinks_takeUntil _
    | apply shrinks_pmap
    | apply shrinks_mapRes
    | apply shrinks_ppair
    | apply shrinks_popt
    | apply shrinks_alt2
    | apply shrinks_recognize
    | apply shrinks_many0
    | apply shrinks_many1
    | apply shrinks_separatedList0

theorem consumes_topLevelAlt : Consumes topLevelAlt := by
  unfold topLevelAlt
  repeat
    first
    | exact consumes_Include
    | exact consumes_CppInclude
    | exact consumes_Namespace
    | exact consumes_Typedef
    | exact consumes_Const
    | exact consumes_Enum
    | exact consumes_Struct
    | exact consumes_Union
    | exact consumes_Exception
    | exact consumes_Service
    | apply consumes_alt2
    | apply consumes_pmap

theorem consumes_documentInner :
    Consumes (delimited (popt Separator.parse) topLevelAlt (popt Separator.parse)) := by
  apply consumes_pmap
  apply consumes_ppair_right
  · exact shrinks_popt shrinks_Separator
  · apply consumes_pmap
    apply consumes_ppair_left
    · exact consumes_topLevelAlt
    · exact shrinks_popt shrinks_Separator

/-- With a strictly consuming inner parser and enough fuel, the `many0` loop
always returns (nom's `many0` over such a parser cannot fail). -/
theorem many0Go_total {p : Parser α} (hp : Consumes p) :
    ∀ n i, i.length < n → ∃ r v, many0Go p n i = some (r, v) := by
  intro n
  induction n with
  | zero => intro i h; omega
  | succ n ih =>
    intro i hlen
    cases hpi : p i with
    | none => exact ⟨i, [], by simp [many0Go, hpi]⟩
    | some x =>
      obtain ⟨r1, a⟩ := x
      have hc := hp i r1 a hpi
      have hne : ¬ (r1.length = i.length) := by omega
      obtain ⟨r2, v2, hgo⟩ := ih r1 (by omega)
      exact ⟨r2, a :: v2, by simp [many0Go, hpi, hne, hgo]⟩

/-- C5: the document aggregator never hard-fails: for every input,
`Document::parse` succeeds, returning a document and the unconsumed
remainder (a suffix of the input) at the point where no top-level production
matches; in particular it succeeds with an empty document and the whole
input as remainder on empty input, on garbage, and on a malformed first
construct. -/
theorem claim5_document_total :
    (∀ input : List Char, ∃ rem doc,
        Document.parse input = some (rem, doc) ∧ rem <:+ input) ∧
    Document.parse [] = some ([], {}) ∧
    Document.parse "?bad".toList = some ("?bad".toList, {}) ∧
    Document.parse "struct user".toList = some ("struct user".toList, {}) := by
  refine ⟨?_, rfl, rfl, rfl⟩
  intro input
  obtain ⟨r, v, h⟩ :=
    many0Go_total consumes_documentInner (input.length + 1) input (by omega)
  have hm : many0 (delimited (popt Separator.parse) topLevelAlt (popt Separator.parse))
      input = some (r, v) := h
  refine ⟨r, v.foldl Document.push {}, by simp [Document.parse, hm], ?_⟩
  exact (shrinks_many0 shrinks_documentInner input r v hm).1

/-- C10: every parser of the `Parser` trait family preserves the input
buffer as consumed-prefix plus remainder: a successful parse returns a
remainder that is a suffix of its input (so never longer than the input).
The conjunction covers every `parse` implementation of the source, plus the
auxiliary entry points `parse2`, `parse_base_type`, `parse_container_type`
and `parse_list_separator`. -/
theorem claim10_remainder_suffix :
    Shrinks Literal.parse ∧ Shrinks Identifier.parse ∧
    Shrinks ListSeparator.parse ∧ Shrinks Comment.parse ∧
    Shrinks Separator.parse ∧ Shrinks ConstValue.parse ∧
    Shrinks IntConstant.parse ∧ Shrinks DoubleConstant.parse ∧
    Shrinks DoubleConstant.parse2 ∧ Shrinks ConstList.parse ∧
    Shrinks ConstMap.parse ∧ Shrinks parse_list_separator ∧
    Shrinks FieldType.parse ∧ Shrinks FieldType.parse_base_type ∧
    Shrinks FieldType.parse_container_type ∧ Shrinks CppType.parse ∧
    Shrinks Field.parse ∧ Shrinks Function.parse ∧
    Shrinks Const.parse ∧ Shrinks Typedef.parse ∧
    Shrinks Enum.parse ∧ Shrinks EnumValue.parse ∧
    Shrinks Struct.parse ∧ Shrinks Union.parse ∧
    Shrinks Exception.parse ∧ Shrinks Service.parse ∧
    Shrinks Include.parse ∧ Shrinks CppInclude.parse ∧
    Shrinks Namespace.parse ∧ Shrinks NamespaceScope.parse ∧
    Shrinks Document.parse :=
  ⟨shrinks_Literal, shrinks_Identifier, shrinks_ListSeparator, shrinks_Comment,
   shrinks_Separator, shrinks_ConstValue, shrinks_IntConstant, shrinks_DoubleConstant,
   shrinks_DoubleConstant2, shrinks_ConstList, shrinks_ConstMap, shrinks_pls,
   shrinks_FieldType, shrinks_base_type, shrinks_container_type, shrinks_CppType,
   shrinks_Field, shrinks_Function, shrinks_Const, shrinks_Typedef,
   shrinks_Enum, shrinks_EnumValue, shrinks_Struct, shrinks_Union,
   shrinks_Exception, shrinks_Service, shrinks_Include, shrinks_CppInclude,
   shrinks_Namespace, shrinks_NamespaceScope, shrinks_Document⟩

/-- C10 witness: the invariant applied at a concrete parse
(`FieldType::parse "boolean x"` leaves the suffix `"ean x"`). -/
theorem claim10_remainder_suffix_witness :
    "ean x".toList <:+ "boolean x".toList ∧
    "ean x".toList.length ≤ "boolean x".toList.length :=
  claim10_remainder_suffix.2.2.2.2.2.2.2.2.2.2.2.2.1
    "boolean x".toList "ean x".toList FieldType.Bool rfl

/-! ## C4: integer overflow is a parse failure -/

theorem takeWhile_all_eq {f : Char → Bool} :
    ∀ {l : List Char}, l.all f = true → l.takeWhile f = l ∧ l.dropWhile f = [] := by
  intro l
  induction l with
  | nil => intro _; exact ⟨rfl, rfl⟩
  | cons c rest ih =>
    intro h
    simp only [List.all_cons, Bool.and_eq_true] at h
    obtain ⟨hc, hrest⟩ := h
    obtain ⟨h1, h2⟩ := ih hrest
    simp [hc, h1, h2]

theorem digit_ne_char {d c : Char} (hd : d.isDigit = true) (hc : c.isDigit = false) :
    (d == c) = false := by
  by_cases h : d = c
  · subst h; rw [hd] at hc; cases hc
  · simp [h]

theorem digit1_all {ds : List Char} (hne : ds ≠ []) (hall : ds.all Char.isDigit = true) :
    digit1 ds = some ([], ds) := by
  cases ds with
  | nil => exact absurd rfl hne
  | cons d rest =>
    have hd : d.isDigit = true := by
      simp only [List.all_cons, Bool.and_eq_true] at hall
      exact hall.1
    obtain ⟨h1, h2⟩ := takeWhile_all_eq (f := Char.isDigit) hall
    simp [digit1, takeWhile1P, hd, h1, h2]

/-- C4: a signed digit string whose value lies outside the signed 64-bit
range is rejected by `IntConstant::parse` — overflow is a conversion
failure, never a wrapped or truncated value. -/
theorem claim4_int_overflow :
    ∀ sgn ds : List Char,
      (sgn = [] ∨ sgn = ['-'] ∨ sgn = ['+']) →
      ds ≠ [] → ds.all Char.isDigit = true →
      ¬ inI64Range (signedDigitsVal sgn ds) →
      IntConstant.parse (sgn ++ ds) = none := by
  intro sgn ds hshape hne hall hrange
  have hd1 : digit1 ds = some ([], ds) := digit1_all hne hall
  obtain ⟨d, rest, rfl⟩ : ∃ d rest, ds = d :: rest := by
    cases ds with
    | nil => exact absurd rfl hne
    | cons d rest => exact ⟨d, rest, rfl⟩
  have hd : d.isDigit = true := by
    simp only [List.all_cons, Bool.and_eq_true] at hall
    exact hall.1
  have hdm : (d == '-') = false := digit_ne_char hd (by decide)
  have hdp : (d == '+') = false := digit_ne_char hd (by decide)
  simp only [inI64Range] at hrange
  rcases hshape with rfl | rfl | rfl
  · have hsign : popt (alt2 (cchar '-') (cchar '+')) (d :: rest) = some (d :: rest, none) := by
      simp [popt, alt2, cchar, satisfy, hdm, hdp]
    have hrec : recognize (ppair (popt (alt2 (cchar '-') (cchar '+'))) digit1) (d :: rest)
        = some ([], d :: rest) := by
      simp [recognize, ppair, hsign, hd1]
    have hv : rustParseI64 (d :: rest) = none := by
      simp only [signedDigitsVal, if_neg (by simp : ¬ ([] : List Char) = ['-'])] at hrange
      simp only [rustParseI64, hdm, hdp]
      simp only [Bool.or_self, Bool.false_or, Bool.or_false, if_false, Bool.false_eq_true,
        List.isEmpty_cons, hall, Bool.not_true, Bool.or_self, ite_false]
      rw [if_neg hrange]
    simp [IntConstant.parse, mapRes, hrec, hv]
  · have hsign : popt (alt2 (cchar '-') (cchar '+')) ('-' :: (d :: rest))
        = some (d :: rest, some '-') := by
      simp [popt, alt2, cchar, satisfy]
    have hrec : recognize (ppair (popt (alt2 (cchar '-') (cchar '+'))) digit1)
        ('-' :: (d :: rest)) = some ([], '-' :: (d :: rest)) := by
      simp [recognize, ppair, hsign, hd1]
    have hv : rustParseI64 ('-' :: (d :: rest)) = none := by
      simp only [signedDigitsVal, reduceIte] at hrange
      simp only [rustParseI64]
      simp only [show (('-' : Char) == '-') = true from rfl,
        show (('-' : Char) == '+') = false from rfl,
        Bool.true_or, if_true, List.isEmpty_cons, hall, Bool.not_true, Bool.or_self,
        ite_true, Bool.false_eq_true, ite_false]
      rw [if_neg hrange]
    have : ('-' :: (d :: rest)) = ['-'] ++ (d :: rest) := rfl
    rw [show (['-'] ++ (d :: rest) : List Char) = '-' :: (d :: rest) from rfl]
    simp [IntConstant.parse, mapRes, hrec, hv]
  · have hsign : popt (alt2 (cchar '-') (cchar '+')) ('+' :: (d :: rest))
        = some (d :: rest, some '+') := by
      simp [popt, alt2, cchar, satisfy]
    have hrec : recognize (ppair (popt (alt2 (cchar '-') (cchar '+'))) digit1)
        ('+' :: (d :: rest)) = some ([], '+' :: (d :: rest)) := by
      simp [recognize, ppair, hsign, hd1]
    have hv : rustParseI64 ('+' :: (d :: rest)) = none := by
      simp only [signedDigitsVal, if_neg (by simp : ¬ (['+'] : List Char) = ['-'])] at hrange
      simp only [rustParseI64]
      simp only [show (('+' : Char) == '-') = false from rfl,
        show (('+' : Char) == '+') = true from rfl,
        Bool.or_true, Bool.false_or, if_true, List.isEmpty_cons, hall, Bool.not_true,
        Bool.or_self, ite_true, Bool.false_eq_true, ite_false]
      rw [if_neg hrange]
    rw [show (['+'] ++ (d :: rest) : List Char) = '+' :: (d :: rest) from rfl]
    simp [IntConstant.parse, mapRes, hrec, hv]

/-- C4 witness: the spec's own example, `-` followed by `10^31`, lies
outside the 64-bit range and is rejected. -/
theorem claim4_int_overflow_witness :
    IntConstant.parse "-10000000000000000000000000000000".toList = none := by
  have h := claim4_int_overflow ['-'] "10000000000000000000000000000000".toList
    (Or.inr (Or.inl rfl)) (by decide) (by decide)
    (by simp only [signedDigitsVal, inI64Range]; decide)
  simpa using h

/-! ## C6 machinery: token-level lemmas for the separator language -/

theorem tag_self (t r : List Char) : tag t (t ++ r) = some (r, t) := by
  simp [tag, List.isPrefixOf_iff_prefix, List.prefix_append, List.drop_left]

theorem take_consumed (pre r : List Char) :
    (pre ++ r).take ((pre ++ r).length - r.length) = pre := by
  rw [List.length_append]
  have h : pre.length + r.length - r.length = pre.length := by omega
  rw [h, List.take_left]

theorem beq_symm_false {a b : Char} (h : (a == b) = false) : (b == a) = false := by
  rw [beq_eq_false_iff_ne] at h ⊢
  exact fun hba => h hba.symm

theorem span_exact {f : Char → Bool} (rest : List Char)
    (hrest : ∀ c, rest.head? = some c → f c = false) :
    ∀ s : List Char, (∀ c ∈ s, f c = true) →
      (s ++ rest).takeWhile f = s ∧ (s ++ rest).dropWhile f = rest := by
  intro s
  induction s with
  | nil =>
    intro _
    cases rest with
    | nil => exact ⟨rfl, rfl⟩
    | cons c r =>
      have hc := hrest c rfl
      simp [hc]
  | cons c s ih =>
    intro hs
    have hc : f c = true := hs c (by simp)
    obtain ⟨h1, h2⟩ := ih (fun x hx => hs x (by simp [hx]))
    simp [hc, h1, h2]

theorem wsChar_cases {c : Char} (h : wsChar c = true) :
    c = ' ' ∨ c = '\t' ∨ c = '\r' ∨ c = '\n' := by
  simpa [wsChar, or_assoc] using h

theorem ws_facts {c : Char} (h : wsChar c = true) :
    (('/' : Char) == c) = false ∧ (c == '#') = false := by
  rcases wsChar_cases h with rfl | rfl | rfl | rfl <;> exact ⟨rfl, rfl⟩

/-- On a hard-stop boundary neither a comment nor whitespace can start, so
one iteration of the `Separator` loop fails. -/
theorem sep_step_fail {s : List Char} (h : sepStop s = true) :
    alt2 (pmap (fun _ => ()) Comment.parse) (pmap (fun _ => ()) multispace1) s = none := by
  cases s with
  | nil => rfl
  | cons c r =>
    simp only [sepStop, Bool.and_eq_true, Bool.not_eq_true'] at h
    obtain ⟨⟨h1, h2⟩, h3⟩ := h
    have hms : multispace1 (c :: r) = none := by
      simp [multispace1, takeWhile1P, h1]
    by_cases hc : c = '/'
    · subst hc
      cases r with
      | nil =>
        have hcm : Comment.parse ['/'] = none := rfl
        simp [alt2, pmap, hcm, hms]
      | cons c2 r2 =>
        have hr : (c2 == '/' || c2 == '*') = false := by simpa using h3
        simp only [Bool.or_eq_false_iff] at hr
        obtain ⟨hr1, hr2⟩ := hr
        have hcm : Comment.parse ('/' :: c2 :: r2) = none := by
          simp [Comment.parse, alt2, pmap, ppair, preceded, terminated, delimited, tag,
            List.isPrefixOf, beq_symm_false hr1, beq_symm_false hr2, cchar, satisfy]
        simp [alt2, pmap, hcm, hms]
    · have hcf : (('/' : Char) == c) = false := by
        rw [beq_eq_false_iff_ne]
        exact fun hh => hc hh.symm
      have hcm : Comment.parse (c :: r) = none := by
        simp [Comment.parse, alt2, pmap, ppair, preceded, terminated, delimited, tag,
          List.isPrefixOf, hcf, cchar, satisfy, h2]
      simp [alt2, pmap, hcm, hms]

theorem all_forall {f : Char → Bool} :
    ∀ {l : List Char}, l.all f = true → ∀ c ∈ l, f c = true := by
  intro l
  induction l with
  | nil => intro _ c hc; simp at hc
  | cons d l ih =>
    intro h c hc
    simp only [List.all_cons, Bool.and_eq_true] at h
    rcases List.mem_cons.mp hc with rfl | hc'
    · exact h.1
    · exact ih h.2 c hc'

theorem contains_false_forall {a : Char} :
    ∀ {l : List Char}, l.contains a = false → ∀ c ∈ l, (c == a) = false := by
  intro l
  induction l with
  | nil => intro _ c hc; simp at hc
  | cons d l ih =>
    intro h c hc
    simp only [List.contains_cons, Bool.or_eq_false_iff] at h
    obtain ⟨h1, h2⟩ := h
    rcases List.mem_cons.mp hc with rfl | hc'
    · exact beq_symm_false h1
    · exact ih h2 c hc'

theorem takeUntil_exact :
    ∀ {s : List Char}, containsSeq ['*', '/'] s = false →
      ∀ rest, takeUntil ['*', '/'] (s ++ '*' :: '/' :: rest) = some ('*' :: '/' :: rest, s) := by
  intro s
  induction s with
  | nil =>
    intro _ rest
    simp [takeUntil, List.isPrefixOf]
  | cons c s ih =>
    intro h rest
    simp only [containsSeq, Bool.or_eq_false_iff] at h
    obtain ⟨h1, h2⟩ := h
    have hnp : List.isPrefixOf ['*', '/'] (c :: (s ++ '*' :: '/' :: rest)) = false := by
      cases s with
      | nil =>
        simp [List.isPrefixOf, (show (('/' : Char) == '*') = false from rfl)]
      | cons d s' =>
        simp only [List.isPrefixOf, Bool.and_true] at h1
        simp only [List.cons_append, List.isPrefixOf, Bool.and_true]
        exact h1
    have hstep := ih h2 rest
    rw [List.cons_append]
    unfold takeUntil
    simp [hnp, hstep]

theorem tok_step (t : SepTok) (rest : List Char) (hgood : t.good = true)
    (hnext : match t with
             | .ws _ => ∀ c, rest.head? = some c → wsChar c = false
             | .line _ => rest.head? = some '\n'
             | .hash _ => rest.head? = some '\n'
             | .block _ => True) :
    alt2 (pmap (fun _ => ()) Comment.parse) (pmap (fun _ => ()) multispace1)
      (t.render ++ rest) = some (rest, ()) := by
  cases t with
  | ws s =>
    simp only [SepTok.good, Bool.and_eq_true, Bool.not_eq_true'] at hgood
    obtain ⟨hne, hall⟩ := hgood
    obtain ⟨d, s', rfl⟩ : ∃ d s', s = d :: s' := by
      cases s with
      | nil => cases hne
      | cons d s' => exact ⟨d, s', rfl⟩
    have hd : wsChar d = true := by
      simp only [List.all_cons, Bool.and_eq_true] at hall
      exact hall.1
    obtain ⟨hsl, hcom⟩ := ws_facts hd
    have hcm : Comment.parse (d :: (s' ++ rest)) = none := by
      simp [Comment.parse, alt2, pmap, ppair, preceded, terminated, delimited, tag,
        List.isPrefixOf, hsl, cchar, satisfy, hcom]
    have hnext' : ∀ c, rest.head? = some c → wsChar c = false := hnext
    obtain ⟨h1, h2⟩ := span_exact rest hnext' (d :: s') (all_forall hall)
    have hms : multispace1 (d :: (s' ++ rest)) = some (rest, d :: s') := by
      simp only [List.cons_append] at h1 h2
      simp [multispace1, takeWhile1P, hd, h1, h2]
    simp only [SepTok.render, List.cons_append]
    simp [alt2, pmap, hcm, hms]
  | line s =>
    have hnl : rest.head? = some '\n' := hnext
    simp only [SepTok.good, Bool.not_eq_true'] at hgood
    have hs : ∀ c ∈ s, (fun x => !(x == '\n')) c = true := by
      intro c hc
      have := contains_false_forall hgood c hc
      simp [this]
    have hrest : ∀ c, rest.head? = some c → (fun x => !(x == '\n')) c = false := by
      intro c hcr
      rw [hnl] at hcr
      cases hcr
      simp
    obtain ⟨h1, h2⟩ := span_exact rest hrest s hs
    have htt : takeTill (fun c => c == '\n') (s ++ rest) = some (rest, s) := by
      simp [takeTill, h1, h2]
    have ht := tag_self ['/', '/'] (s ++ rest)
    simp only [List.cons_append, List.nil_append] at ht
    have hcm : Comment.parse ('/' :: '/' :: (s ++ rest)) = some (rest, s) := by
      simp [Comment.parse, alt2, preceded, pmap, ppair, ht, htt]
    simp only [SepTok.render, List.cons_append]
    simp [alt2, pmap, hcm]
  | hash s =>
    have hnl : rest.head? = some '\n' := hnext
    simp only [SepTok.good, Bool.not_eq_true'] at hgood
    have hs : ∀ c ∈ s, (fun x => !(x == '\n')) c = true := by
      intro c hc
      have := contains_false_forall hgood c hc
      simp [this]
    have hrest : ∀ c, rest.head? = some c → (fun x => !(x == '\n')) c = false := by
      intro c hcr
      rw [hnl] at hcr
      cases hcr
      simp
    obtain ⟨h1, h2⟩ := span_exact rest hrest s hs
    have htt : takeTill (fun c => c == '\n') (s ++ rest) = some (rest, s) := by
      simp [takeTill, h1, h2]
    have hcm : Comment.parse ('#' :: (s ++ rest)) = some (rest, s) := by
      simp [Comment.parse, alt2, preceded, pmap, ppair, tag, List.isPrefixOf,
        (show (('/' : Char) == '#') = false from rfl), cchar, satisfy, htt]
    simp only [SepTok.render, List.cons_append]
    simp [alt2, pmap, hcm]
  | block s =>
    simp only [SepTok.good, Bool.not_eq_true'] at hgood
    have htu := takeUntil_exact hgood rest
    have ht1 := tag_self ['/', '*'] (s ++ '*' :: '/' :: rest)
    simp only [List.cons_append, List.nil_append] at ht1
    have ht2 := tag_self ['*', '/'] rest
    simp only [List.cons_append, List.nil_append] at ht2
    have hcm : Comment.parse ('/' :: '*' :: (s ++ '*' :: '/' :: rest))
        = some (rest, s) := by
      simp [Comment.parse, alt2, preceded, delimited, terminated, pmap, ppair, tag,
        List.isPrefixOf, (show (('/' : Char) == '*') = false from rfl),
        (show (('/' : Char) == '/') = true from rfl),
        cchar, satisfy, (show (('/' : Char) == '#') = false from rfl), htu, ht2, ht1]
    have hrw : SepTok.render (SepTok.block s) ++ rest
        = '/' :: '*' :: (s ++ '*' :: '/' :: rest) := by
      simp [SepTok.render]
    rw [hrw]
    simp [alt2, pmap, hcm]

theorem render_ne {t : SepTok} (h : t.good = true) : t.render ≠ [] := by
  cases t with
  | ws s =>
    simp only [SepTok.good, Bool.and_eq_true, Bool.not_eq_true'] at h
    cases s with
    | nil => cases h.1
    | cons c s' => simp [SepTok.render]
  | line s => simp [SepTok.render]
  | hash s => simp [SepTok.render]
  | block s => simp [SepTok.render]

theorem goodToks_cons {t : SepTok} {ts : List SepTok} {rest : List Char}
    (h : goodToks (t :: ts) rest = true) :
    t.good = true ∧ goodToks ts rest = true := by
  simp only [goodToks, Bool.and_eq_true] at h
  exact ⟨h.1.1, h.1.2⟩

theorem goodToks_cons_cond {t : SepTok} {ts : List SepTok} {rest : List Char}
    (h : goodToks (t :: ts) rest = true) :
    (match t with
     | SepTok.ws _ => ∀ c, toksHead ts rest = some c → wsChar c = false
     | SepTok.line _ => toksHead ts rest = some '\n'
     | SepTok.hash _ => toksHead ts rest = some '\n'
     | SepTok.block _ => True) := by
  simp only [goodToks, Bool.and_eq_true] at h
  have hc := h.2
  cases t with
  | ws s =>
    intro c hcc
    rw [hcc] at hc
    simpa using hc
  | line s => simpa using hc
  | hash s => simpa using hc
  | block s => trivial

theorem toksHead_eq : ∀ (ts : List SepTok) (rest : List Char),
    goodToks ts rest = true → (renderToks ts ++ rest).head? = toksHead ts rest := by
  intro ts rest h
  cases ts with
  | nil => simp [renderToks, toksHead]
  | cons t ts' =>
    obtain ⟨hg, -⟩ := goodToks_cons h
    obtain ⟨c, cs, hrc⟩ : ∃ c cs, t.render = c :: cs := by
      cases hr : t.render with
      | nil => exact absurd hr (render_ne hg)
      | cons c cs => exact ⟨c, cs, rfl⟩
    simp [renderToks, toksHead, hrc]

theorem tok_step_in_list {t : SepTok} {ts' : List SepTok} {rest : List Char}
    (hg : goodToks (t :: ts') rest = true) :
    alt2 (pmap (fun _ => ()) Comment.parse) (pmap (fun _ => ()) multispace1)
      (t.render ++ (renderToks ts' ++ rest)) = some (renderToks ts' ++ rest, ()) := by
  obtain ⟨hgt, hgts⟩ := goodToks_cons hg
  have hcond := goodToks_cons_cond hg
  apply tok_step t _ hgt
  cases t with
  | ws s =>
    intro c hcc
    rw [toksHead_eq ts' rest hgts] at hcc
    exact hcond c hcc
  | line s => rw [toksHead_eq ts' rest hgts]; exact hcond
  | hash s => rw [toksHead_eq ts' rest hgts]; exact hcond
  | block s => trivial

theorem sep_loop : ∀ (ts : List SepTok) (rest : List Char) (fuel : Nat),
    goodToks ts rest = true → sepStop rest = true →
    (renderToks ts ++ rest).length < fuel →
    ∃ l, many0Go (alt2 (pmap (fun _ => ()) Comment.parse) (pmap (fun _ => ()) multispace1))
      fuel (renderToks ts ++ rest) = some (rest, l) := by
  intro ts
  induction ts with
  | nil =>
    intro rest fuel hg hs hlen
    cases fuel with
    | zero => omega
    | succ f =>
      refine ⟨[], ?_⟩
      simp [renderToks, many0Go, sep_step_fail hs]
  | cons t ts' ih =>
    intro rest fuel hg hs hlen
    obtain ⟨hgt, hgts⟩ := goodToks_cons hg
    have hstep := tok_step_in_list hg
    cases fuel with
    | zero => omega
    | succ f =>
      have hrne := render_ne hgt
      have hAlen : 0 < t.render.length := List.length_pos.mpr hrne
      have heq : renderToks (t :: ts') ++ rest = t.render ++ (renderToks ts' ++ rest) := by
        simp [renderToks]
      rw [heq] at hlen ⊢
      rw [List.length_append] at hlen
      obtain ⟨l, hl⟩ := ih rest f hgts hs (by omega)
      refine ⟨() :: l, ?_⟩
      unfold many0Go
      simp [hstep, hl, hrne]

theorem sep_run : ∀ (ts : List SepTok) (rest : List Char), ts ≠ [] →
    goodToks ts rest = true → sepStop rest = true →
    Separator.parse (renderToks ts ++ rest) = some (rest, ()) := by
  intro ts rest hne hg hs
  cases ts with
  | nil => exact absurd rfl hne
  | cons t ts' =>
    obtain ⟨hgt, hgts⟩ := goodToks_cons hg
    have hstep := tok_step_in_list hg
    have heq : renderToks (t :: ts') ++ rest = t.render ++ (renderToks ts' ++ rest) := by
      simp [renderToks]
    rw [heq]
    obtain ⟨l, hl⟩ := sep_loop ts' rest ((renderToks ts').length + rest.length + 1) hgts hs
      (by rw [List.length_append]; omega)
    simp [Separator.parse, pmap, many1, hstep, hl]

theorem sep_fail {s : List Char} (h : sepStop s = true) : Separator.parse s = none := by
  simp [Separator.parse, pmap, many1, sep_step_fail h]

theorem plsStop_sepStop {s : List Char} (h : plsStop s = true) : sepStop s = true := by
  simp only [plsStop, Bool.and_eq_true] at h
  exact h.1

theorem startOk_stops {txt : List Char} (h : startOk txt = true) (r : List Char) :
    sepStop (txt ++ r) = true ∧ plsStop (txt ++ r) = true := by
  cases txt with
  | nil => cases h
  | cons c t =>
    simp only [startOk, Bool.and_eq_true, Bool.not_eq_true'] at h
    obtain ⟨⟨⟨⟨h1, h2⟩, h3⟩, h4⟩, h5⟩ := h
    have hsep : sepStop (c :: (t ++ r)) = true := by
      simp [sepStop, h1, h2, h3]
    constructor
    · exact hsep
    · simp [plsStop, hsep, h4, h5]

theorem listsep_fail {s : List Char} (h : plsStop s = true) :
    ListSeparator.parse s = none := by
  cases s with
  | nil => rfl
  | cons c r =>
    simp only [plsStop, Bool.and_eq_true] at h
    obtain ⟨-, h23⟩ := h
    simp only [Bool.and_eq_true, Bool.not_eq_true'] at h23
    obtain ⟨h2, h3⟩ := h23
    have h2' : ¬ c = ',' := by simpa using h2
    have h3' : ¬ c = ';' := by simpa using h3
    simp [ListSeparator.parse, pmap, oneOf, satisfy, List.contains_cons, h2', h3']

theorem pls_fail {s : List Char} (h : plsStop s = true) :
    parse_list_separator s = none := by
  simp [parse_list_separator, alt2, pmap, ppair, sep_fail (plsStop_sepStop h), listsep_fail h]

theorem pls_run (sp : SepSpec) (rest : List Char)
    (hg : sp.good rest = true) (hstop : plsStop rest = true) :
    parse_list_separator (sp.render ++ rest) = some (rest, ()) := by
  have hsepstop : sepStop rest = true := plsStop_sepStop hstop
  obtain ⟨pre, punct, post⟩ := sp
  cases punct with
  | none =>
    simp only [SepSpec.good, Bool.and_eq_true, Bool.not_eq_true'] at hg
    obtain ⟨⟨hp, hpost⟩, hgood⟩ := hg
    have hpre_ne : pre ≠ [] := by
      cases pre with
      | nil => cases hp
      | cons _ _ => simp
    have hpost_nil : post = [] := by
      cases post with
      | nil => rfl
      | cons _ _ => cases hpost
    subst hpost_nil
    have hrw : SepSpec.render ⟨pre, none, []⟩ ++ rest = renderToks pre ++ rest := by
      simp [SepSpec.render, renderToks]
    rw [hrw]
    have hsep := sep_run pre rest hpre_ne hgood hsepstop
    simp [parse_list_separator, alt2, pmap, ppair, popt, hsep,
      listsep_fail hstop, sep_fail hsepstop]
  | some c =>
    simp only [SepSpec.good, Bool.and_eq_true] at hg
    obtain ⟨⟨hc, hgpre⟩, hgpost⟩ := hg
    have hcc : c = ',' ∨ c = ';' := by simpa using hc
    have hcs : sepStop (c :: (renderToks post ++ rest)) = true := by
      rcases hcc with rfl | rfl <;> rfl
    have hcl : ListSeparator.parse (c :: (renderToks post ++ rest))
        = some (renderToks post ++ rest, ()) := by
      rcases hcc with rfl | rfl <;> rfl
    have hpost2 : ∃ o, popt Separator.parse (renderToks post ++ rest) = some (rest, o) := by
      cases post with
      | nil => exact ⟨none, by simp [renderToks, popt, sep_fail hsepstop]⟩
      | cons p ps =>
        refine ⟨some (), ?_⟩
        have := sep_run (p :: ps) rest (by simp) hgpost hsepstop
        simp [popt, this]
    obtain ⟨o, hpost2⟩ := hpost2
    have hrw : SepSpec.render ⟨pre, some c, post⟩ ++ rest
        = renderToks pre ++ (c :: (renderToks post ++ rest)) := by
      simp [SepSpec.render]
    rw [hrw]
    have hoptLS : popt ListSeparator.parse (c :: (renderToks post ++ rest))
        = some (renderToks post ++ rest, some ()) := by
      simp [popt, hcl]
    cases hpre0 : pre with
    | nil =>
      have hsepfail := sep_fail hcs
      simp [renderToks, parse_list_separator, alt2, pmap, ppair,
        hsepfail, hcl, hpost2]
    | cons p ps =>
      rw [hpre0] at hgpre
      have hsep := sep_run (p :: ps) (c :: (renderToks post ++ rest)) (by simp) hgpre hcs
      simp [parse_list_separator, alt2, pmap, ppair, hsep, hoptLS, hpost2]

theorem recognize_eval {α : Type} {p : Parser α} {pre rest : List Char} {v : α}
    (h : p (pre ++ rest) = some (rest, v)) :
    recognize p (pre ++ rest) = some (rest, pre) := by
  simp [recognize, h, take_consumed]

theorem elemStop_char_facts {c : Char}
    (h : (c == ',' || c == ';' || c == ']' || c == '#' || c == '/' || wsChar c) = true) :
    c.isDigit = false ∧ (c.isAlphanum || c == '.' || c == '_') = false ∧
    (c == '.') = false ∧ (c == 'e') = false ∧ (c == 'E') = false ∧
    (c == '-') = false ∧ (c == '+') = false := by
  have hc : c = ',' ∨ c = ';' ∨ c = ']' ∨ c = '#' ∨ c = '/' ∨
      c = ' ' ∨ c = '\t' ∨ c = '\r' ∨ c = '\n' := by
    have h' := h
    simp [wsChar] at h'
    tauto
  rcases hc with rfl | rfl | rfl | rfl | rfl | rfl | rfl | rfl | rfl <;> decide

theorem elemStop_eval {rest : List Char} (h : elemStop rest = true) :
    rest.takeWhile (fun c => c.isDigit) = [] ∧
    rest.dropWhile (fun c => c.isDigit) = rest ∧
    rest.takeWhile (fun c => c.isAlphanum || c == '.' || c == '_') = [] ∧
    rest.dropWhile (fun c => c.isAlphanum || c == '.' || c == '_') = rest ∧
    cchar '.' rest = none ∧ cchar 'e' rest = none ∧ cchar 'E' rest = none ∧
    cchar '-' rest = none ∧ cchar '+' rest = none := by
  cases rest with
  | nil => exact ⟨rfl, rfl, rfl, rfl, rfl, rfl, rfl, rfl, rfl⟩
  | cons c r =>
    have hfacts := elemStop_char_facts (by simpa [elemStop] using h)
    obtain ⟨f1, f2, f3, f4, f5, f6, f7⟩ := hfacts
    refine ⟨?_, ?_, ?_, ?_, ?_, ?_, ?_, ?_, ?_⟩
    · simp [List.takeWhile_cons, f1]
    · simp [List.dropWhile_cons, f1]
    · simp [List.takeWhile_cons, f2]
    · simp [List.dropWhile_cons, f2]
    · simp [cchar, satisfy, f3]
    · simp [cchar, satisfy, f4]
    · simp [cchar, satisfy, f5]
    · simp [cchar, satisfy, f6]
    · simp [cchar, satisfy, f7]

theorem ppair_some {p : Parser α} {q : Parser β} {i r1 r2 : List Char} {a : α} {b : β}
    (hp : p i = some (r1, a)) (hq : q r1 = some (r2, b)) :
    ppair p q i = some (r2, (a, b)) := by
  simp [ppair, hp, hq]

theorem ppair_none_left {p : Parser α} {q : Parser β} {i : List Char}
    (hp : p i = none) : ppair p q i = none := by
  simp [ppair, hp]

theorem ppair_none_right {p : Parser α} {q : Parser β} {i r1 : List Char} {a : α}
    (hp : p i = some (r1, a)) (hq : q r1 = none) : ppair p q i = none := by
  simp [ppair, hp, hq]

theorem popt_eq_some {p : Parser α} {i r : List Char} {a : α}
    (h : p i = some (r, a)) : popt p i = some (r, some a) := by
  simp [popt, h]

theorem popt_eq_none {p : Parser α} {i : List Char}
    (h : p i = none) : popt p i = some (i, none) := by
  simp [popt, h]

theorem alt2_first {p q : Parser α} {i : List Char} {x : List Char × α}
    (h : p i = some x) : alt2 p q i = some x := by
  simp [alt2, h]

theorem alt2_second {p q : Parser α} {i : List Char}
    (h : p i = none) : alt2 p q i = q i := by
  simp [alt2, h]

theorem pmap_eq {f : α → β} {p : Parser α} {i r : List Char} {a : α}
    (h : p i = some (r, a)) : pmap f p i = some (r, f a) := by
  simp [pmap, h]

theorem pmap_none {f : α → β} {p : Parser α} {i : List Char}
    (h : p i = none) : pmap f p i = none := by
  simp [pmap, h]

theorem mapRes_some {p : Parser α} {f : α → Option β} {i r : List Char} {a : α} {b : β}
    (hp : p i = some (r, a)) (hf : f a = some b) : mapRes p f i = some (r, b) := by
  simp [mapRes, hp, hf]

theorem mapRes_conv_none {p : Parser α} {f : α → Option β} {i r : List Char} {a : α}
    (hp : p i = some (r, a)) (hf : f a = none) : mapRes p f i = none := by
  simp [mapRes, hp, hf]

theorem mapRes_none {p : Parser α} {f : α → Option β} {i : List Char}
    (hp : p i = none) : mapRes p f i = none := by
  simp [mapRes, hp]

theorem recognize_none {p : Parser α} {i : List Char}
    (h : p i = none) : recognize p i = none := by
  simp [recognize, h]

theorem recognize_exact {p : Parser α} {pre rest : List Char} {v : α} {i : List Char}
    (hi : i = pre ++ rest) (h : p i = some (rest, v)) :
    recognize p i = some (rest, pre) := by
  subst hi
  exact recognize_eval h

theorem elemOk_digit {d : Char} {k : Int}
    (hdg : d.isDigit = true) (halpha : d.isAlpha = false)
    (hu : (d == '_') = false)
    (hq1 : (d == '"') = false) (hq2 : (d == '\'') = false)
    (hm : (d == '-') = false) (hp : (d == '+') = false)
    (hdot : List.contains [d] '.' = false) (hce : List.contains [d] 'e' = false)
    (hcE : List.contains [d] 'E' = false)
    (hval : rustParseI64 [d] = some k) :
    ElemOk [d] (ConstValue.Int k) := by
  intro n rest hstop
  obtain ⟨t1, t2, t3, t4, t5, t6, t7, t8, t9⟩ := elemStop_eval hstop
  have c_us : cchar '_' (d :: rest) = none := by simp [cchar, satisfy, hu]
  have c_q1 : cchar '"' (d :: rest) = none := by simp [cchar, satisfy, hq1]
  have c_q2 : cchar '\'' (d :: rest) = none := by simp [cchar, satisfy, hq2]
  have c_m : cchar '-' (d :: rest) = none := by simp [cchar, satisfy, hm]
  have c_p : cchar '+' (d :: rest) = none := by simp [cchar, satisfy, hp]
  have s_alpha : satisfy (fun c => c.isAlpha) (d :: rest) = none := by
    simp [satisfy, halpha]
  have h_sign : popt (alt2 (cchar '-') (cchar '+')) (d :: rest)
      = some (d :: rest, none) :=
    popt_eq_none (by rw [alt2_second c_m]; exact c_p)
  have h_d0 : digit0 (d :: rest) = some (rest, [d]) := by
    simp [digit0, takeWhileP, List.takeWhile_cons, List.dropWhile_cons, hdg, t1, t2]
  have h_d1 : digit1 (d :: rest) = some (rest, [d]) := by
    simp [digit1, takeWhile1P, hdg, List.takeWhile_cons, List.dropWhile_cons, t1, t2]
  have h_frac : popt (ppair (cchar '.') digit1) rest = some (rest, none) :=
    popt_eq_none (ppair_none_left t5)
  have h_exp : popt (ppair (alt2 (cchar 'E') (cchar 'e')) IntConstant.parse) rest
      = some (rest, none) :=
    popt_eq_none (ppair_none_left (by rw [alt2_second t7]; exact t6))
  have hid : Identifier.parse (d :: rest) = none := by
    unfold Identifier.parse
    exact recognize_none (ppair_none_right (popt_eq_none c_us) (ppair_none_left s_alpha))
  have hlit : Literal.parse (d :: rest) = none := by
    unfold Literal.parse
    exact (alt2_second (pmap_none (ppair_none_left c_q1))).trans
      (pmap_none (ppair_none_left c_q2))
  have hinD := ppair_some h_sign (ppair_some h_d0 (ppair_some h_frac h_exp))
  have hrecog : doubleRecognizer (d :: rest) = some (rest, [d]) := by
    unfold doubleRecognizer
    exact recognize_exact (by simp) hinD
  have hp2 : DoubleConstant.parse2 (d :: rest) = none := by
    unfold DoubleConstant.parse2
    exact mapRes_conv_none hrecog (by simp only [hdot, hce, hcE]; rfl)
  have hrecI : recognize (ppair (popt (alt2 (cchar '-') (cchar '+'))) digit1) (d :: rest)
      = some (rest, [d]) :=
    recognize_exact (by simp) (ppair_some h_sign h_d1)
  have hint : IntConstant.parse (d :: rest) = some (rest, k) := by
    unfold IntConstant.parse
    exact mapRes_some hrecI hval
  show constValueGo (n + 1) ([d] ++ rest) = some (rest, ConstValue.Int k)
  simp only [List.cons_append, List.nil_append]
  unfold constValueGo
  rw [alt2_second (pmap_none hid), alt2_second (pmap_none hlit),
    alt2_second (pmap_none hp2)]
  exact alt2_first (pmap_eq hint)

theorem elemOk_alpha {d : Char} (halpha : d.isAlpha = true) (hu : (d == '_') = false) :
    ElemOk [d] (ConstValue.Identifier [d]) := by
  intro n rest hstop
  obtain ⟨t1, t2, t3, t4, t5, t6, t7, t8, t9⟩ := elemStop_eval hstop
  have c_us : cchar '_' (d :: rest) = none := by simp [cchar, satisfy, hu]
  have s_alpha : satisfy (fun c => c.isAlpha) (d :: rest) = some (rest, d) := by
    simp [satisfy, halpha]
  have h_tw : takeWhileP (fun c => c.isAlphanum || c == '.' || c == '_') rest
      = some (rest, []) := by
    simp [takeWhileP, t3, t4]
  have hid : Identifier.parse (d :: rest) = some (rest, [d]) := by
    unfold Identifier.parse
    exact recognize_exact (by simp)
      (ppair_some (popt_eq_none c_us) (ppair_some s_alpha h_tw))
  show constValueGo (n + 1) ([d] ++ rest) = some (rest, ConstValue.Identifier [d])
  simp only [List.cons_append, List.nil_append]
  unfold constValueGo
  exact alt2_first (pmap_eq hid)

theorem elemOk_one_dot_one : ElemOk ['1', '.', '1'] (ConstValue.Double (mkRat 11 10)) := by
  intro n rest hstop
  obtain ⟨t1, t2, t3, t4, t5, t6, t7, t8, t9⟩ := elemStop_eval hstop
  have c_m : cchar '-' ('1' :: '.' :: '1' :: rest) = none := rfl
  have c_p : cchar '+' ('1' :: '.' :: '1' :: rest) = none := rfl
  have c_dot : cchar '.' ('.' :: '1' :: rest) = some ('1' :: rest, '.') := rfl
  have h_d1 : digit1 ('1' :: rest) = some (rest, ['1']) := by
    simp [digit1, takeWhile1P, List.takeWhile_cons, List.dropWhile_cons,
      (show ('1' : Char).isDigit = true from rfl), t1, t2]
  have h_frac : popt (ppair (cchar '.') digit1) ('.' :: '1' :: rest)
      = some (rest, some ('.', ['1'])) :=
    popt_eq_some (ppair_some c_dot h_d1)
  have h_exp : popt (ppair (alt2 (cchar 'E') (cchar 'e')) IntConstant.parse) rest
      = some (rest, none) :=
    popt_eq_none (ppair_none_left ((alt2_second t7).trans t6))
  have h_sign : popt (alt2 (cchar '-') (cchar '+')) ('1' :: '.' :: '1' :: rest)
      = some ('1' :: '.' :: '1' :: rest, none) :=
    popt_eq_none ((alt2_second c_m).trans c_p)
  have h_d0 : digit0 ('1' :: '.' :: '1' :: rest) = some ('.' :: '1' :: rest, ['1']) := rfl
  have hinD := ppair_some h_sign (ppair_some h_d0 (ppair_some h_frac h_exp))
  have hrecog : doubleRecognizer ('1' :: '.' :: '1' :: rest)
      = some (rest, ['1', '.', '1']) := by
    unfold doubleRecognizer
    exact recognize_exact (by simp) hinD
  have hd2 : DoubleConstant.parse2 ('1' :: '.' :: '1' :: rest)
      = some (rest, mkRat 11 10) := by
    unfold DoubleConstant.parse2
    exact mapRes_some hrecog rfl
  have c_us : cchar '_' ('1' :: '.' :: '1' :: rest) = none := rfl
  have s_alpha : satisfy (fun c => c.isAlpha) ('1' :: '.' :: '1' :: rest) = none := rfl
  have hid : Identifier.parse ('1' :: '.' :: '1' :: rest) = none := by
    unfold Identifier.parse
    exact recognize_none (ppair_none_right (popt_eq_none c_us) (ppair_none_left s_alpha))
  have c_q1 : cchar '"' ('1' :: '.' :: '1' :: rest) = none := rfl
  have c_q2 : cchar '\'' ('1' :: '.' :: '1' :: rest) = none := rfl
  have hlit : Literal.parse ('1' :: '.' :: '1' :: rest) = none := by
    unfold Literal.parse
    exact (alt2_second (pmap_none (ppair_none_left c_q1))).trans
      (pmap_none (ppair_none_left c_q2))
  show constValueGo (n + 1) (['1', '.', '1'] ++ rest)
      = some (rest, ConstValue.Double (mkRat 11 10))
  simp only [List.cons_append, List.nil_append]
  unfold constValueGo
  rw [alt2_second (pmap_none hid), alt2_second (pmap_none hlit)]
  exact alt2_first (pmap_eq hd2)

theorem cv_close_fail : ∀ (m : Nat) (rest : List Char),
    constValueGo m (']' :: rest) = none := by
  intro m rest
  cases m with
  | zero => rfl
  | succ m =>
    have c_m : cchar '-' (']' :: rest) = none := rfl
    have c_p : cchar '+' (']' :: rest) = none := rfl
    have h_sign : popt (alt2 (cchar '-') (cchar '+')) (']' :: rest)
        = some (']' :: rest, none) :=
      popt_eq_none ((alt2_second c_m).trans c_p)
    have h_d0 : digit0 (']' :: rest) = some (']' :: rest, []) := rfl
    have c_dot : cchar '.' (']' :: rest) = none := rfl
    have h_frac : popt (ppair (cchar '.') digit1) (']' :: rest)
        = some (']' :: rest, none) :=
      popt_eq_none (ppair_none_left c_dot)
    have c_E : cchar 'E' (']' :: rest) = none := rfl
    have c_e : cchar 'e' (']' :: rest) = none := rfl
    have h_exp : popt (ppair (alt2 (cchar 'E') (cchar 'e')) IntConstant.parse) (']' :: rest)
        = some (']' :: rest, none) :=
      popt_eq_none (ppair_none_left ((alt2_second c_E).trans c_e))
    have hinD := ppair_some h_sign (ppair_some h_d0 (ppair_some h_frac h_exp))
    have hrecog : doubleRecognizer (']' :: rest) = some (']' :: rest, []) := by
      unfold doubleRecognizer
      exact recognize_exact rfl hinD
    have hd2 : DoubleConstant.parse2 (']' :: rest) = none := by
      unfold DoubleConstant.parse2
      exact mapRes_conv_none hrecog rfl
    have c_us : cchar '_' (']' :: rest) = none := rfl
    have s_alpha : satisfy (fun c => c.isAlpha) (']' :: rest) = none := rfl
    have hid : Identifier.parse (']' :: rest) = none := by
      unfold Identifier.parse
      exact recognize_none (ppair_none_right (popt_eq_none c_us) (ppair_none_left s_alpha))
    have c_q1 : cchar '"' (']' :: rest) = none := rfl
    have c_q2 : cchar '\'' (']' :: rest) = none := rfl
    have hlit : Literal.parse (']' :: rest) = none := by
      unfold Literal.parse
      exact (alt2_second (pmap_none (ppair_none_left c_q1))).trans
        (pmap_none (ppair_none_left c_q2))
    have h_dig1 : digit1 (']' :: rest) = none := rfl
    have hint : IntConstant.parse (']' :: rest) = none := by
      unfold IntConstant.parse
      exact mapRes_none (recognize_none (ppair_none_right h_sign h_dig1))
    have hlist : constListGo m (']' :: rest) = none := by
      cases m <;> rfl
    have hmap : constMapGo m (']' :: rest) = none := by
      cases m <;> rfl
    unfold constValueGo
    rw [alt2_second (pmap_none hid), alt2_second (pmap_none hlit),
      alt2_second (pmap_none hd2), alt2_second (pmap_none hint),
      alt2_second (pmap_none hlist)]
    exact pmap_none hmap

theorem tok_render_head {t : SepTok} (h : t.good = true) :
    ∃ c cs, t.render = c :: cs ∧
      (c == ',' || c == ';' || c == ']' || c == '#' || c == '/' || wsChar c) = true := by
  cases t with
  | ws s =>
    simp only [SepTok.good, Bool.and_eq_true, Bool.not_eq_true'] at h
    obtain ⟨hne, hall⟩ := h
    cases s with
    | nil => simp at hne
    | cons c cs =>
      refine ⟨c, cs, rfl, ?_⟩
      have hc : wsChar c = true := by
        have := List.all_eq_true.mp hall c (by simp)
        simpa using this
      simp [hc]
  | line s => exact ⟨'/', '/' :: s, rfl, by decide⟩
  | hash s => exact ⟨'#', s, rfl, by decide⟩
  | block s => exact ⟨'/', '*' :: (s ++ ['*', '/']), rfl, by decide⟩

theorem sepSpec_render_head {sp : SepSpec} {r : List Char} (h : sp.good r = true) :
    ∃ c cs, sp.render = c :: cs ∧
      (c == ',' || c == ';' || c == ']' || c == '#' || c == '/' || wsChar c) = true := by
  obtain ⟨pre, punct, post⟩ := sp
  cases punct with
  | none =>
    simp only [SepSpec.good, Bool.and_eq_true, Bool.not_eq_true'] at h
    obtain ⟨⟨hne, hpost⟩, hg⟩ := h
    cases pre with
    | nil => simp at hne
    | cons t ts =>
      obtain ⟨ht, -⟩ := goodToks_cons hg
      obtain ⟨c, cs, hrend, hcfact⟩ := tok_render_head ht
      exact ⟨c, cs ++ (renderToks ts ++ renderToks post),
        by simp [SepSpec.render, renderToks, hrend], hcfact⟩
  | some c =>
    simp only [SepSpec.good, Bool.and_eq_true] at h
    obtain ⟨⟨hc, hgpre⟩, hgpost⟩ := h
    cases pre with
    | nil =>
      refine ⟨c, renderToks post, by simp [SepSpec.render, renderToks], ?_⟩
      have hcc : c = ',' ∨ c = ';' := by simpa using hc
      rcases hcc with rfl | rfl <;> decide
    | cons t ts =>
      obtain ⟨ht, -⟩ := goodToks_cons hgpre
      obtain ⟨c2, cs, hrend, hcfact⟩ := tok_render_head ht
      exact ⟨c2, cs ++ (renderToks ts ++ c :: renderToks post),
        by simp [SepSpec.render, renderToks, hrend], hcfact⟩

theorem elemStop_of_head {c : Char} {cs : List Char}
    (h : (c == ',' || c == ';' || c == ']' || c == '#' || c == '/' || wsChar c) = true) :
    elemStop (c :: cs) = true := h

theorem glue_elemStop : ∀ (ps : List (SepSpec × List Char × ConstValue))
    (trail : List SepTok) (rest : List Char),
    chainOk ps (renderToks trail ++ ']' :: rest) →
    goodToks trail (']' :: rest) = true →
    elemStop (glueTail ps (renderToks trail ++ ']' :: rest)) = true := by
  intro ps trail rest hchain htrail
  cases ps with
  | nil =>
    cases trail with
    | nil => rfl
    | cons t ts =>
      obtain ⟨ht, -⟩ := goodToks_cons htrail
      obtain ⟨c, cs, hrend, hcfact⟩ := tok_render_head ht
      have hrw : glueTail [] (renderToks (t :: ts) ++ ']' :: rest)
          = c :: (cs ++ (renderToks ts ++ ']' :: rest)) := by
        simp [glueTail, renderToks, hrend]
      rw [hrw]
      exact elemStop_of_head hcfact
  | cons p ps' =>
    obtain ⟨sp, txt, v⟩ := p
    obtain ⟨hspg, -⟩ := hchain
    obtain ⟨c, cs, hrend, hcfact⟩ := sepSpec_render_head hspg
    have hrw : glueTail ((sp, txt, v) :: ps') (renderToks trail ++ ']' :: rest)
        = c :: (cs ++ (txt ++ glueTail ps' (renderToks trail ++ ']' :: rest))) := by
      simp [glueTail, hrend]
    rw [hrw]
    exact elemStop_of_head hcfact

theorem sep_list_loop : ∀ (ps : List (SepSpec × List Char × ConstValue)) (m : Nat)
    (trail : List SepTok) (rest : List Char) (fuel : Nat),
    chainOk ps (renderToks trail ++ ']' :: rest) →
    goodToks trail (']' :: rest) = true →
    (glueTail ps (renderToks trail ++ ']' :: rest)).length + 1 ≤ fuel →
    sepList0Go parse_list_separator (constValueGo (m + 1)) fuel
      (glueTail ps (renderToks trail ++ ']' :: rest))
      = some (renderToks trail ++ ']' :: rest, ps.map (fun q => q.2.2)) := by
  intro ps
  induction ps with
  | nil =>
    intro m trail rest fuel hchain htrail hfuel
    cases fuel with
    | zero => exact absurd hfuel (by omega)
    | succ f =>
      cases trail with
      | nil =>
        have hstop : plsStop (']' :: rest) = true := rfl
        have hpf := pls_fail hstop
        simp [glueTail, renderToks, sepList0Go, hpf]
      | cons t ts =>
        have hstop : plsStop (']' :: rest) = true := rfl
        have hgood : SepSpec.good ⟨t :: ts, none, []⟩ (']' :: rest) = true := by
          simp [SepSpec.good, htrail]
        have hrun := pls_run ⟨t :: ts, none, []⟩ (']' :: rest) hgood hstop
        have hrw : SepSpec.render ⟨t :: ts, none, []⟩ = renderToks (t :: ts) := by
          simp [SepSpec.render, renderToks]
        rw [hrw] at hrun
        obtain ⟨ht, -⟩ := goodToks_cons htrail
        have hne := render_ne ht
        have h1 : t.render.length ≠ 0 := fun h0 => hne (List.eq_nil_of_length_eq_zero h0)
        have hlen : ¬ ((']' :: rest).length = (renderToks (t :: ts) ++ ']' :: rest).length) := by
          simp only [renderToks, List.length_append, List.length_cons]
          omega
        have hrne : renderToks (t :: ts) ≠ [] :=
          fun h0 => hne (List.append_eq_nil.mp h0).1
        simp only [glueTail]
        simp [sepList0Go, hrun, hlen, cv_close_fail, hrne]
  | cons p ps' ih =>
    intro m trail rest fuel hchain htrail hfuel
    obtain ⟨sp, txt, v⟩ := p
    obtain ⟨hspg, hstart, helem, hchain'⟩ := hchain
    cases fuel with
    | zero => exact absurd hfuel (by omega)
    | succ f =>
      have hglue : glueTail ((sp, txt, v) :: ps') (renderToks trail ++ ']' :: rest)
          = sp.render ++ (txt ++ glueTail ps' (renderToks trail ++ ']' :: rest)) := rfl
      have hplsstop : plsStop (txt ++ glueTail ps' (renderToks trail ++ ']' :: rest)) = true :=
        (startOk_stops hstart _).2
      have hrun := pls_run sp (txt ++ glueTail ps' (renderToks trail ++ ']' :: rest))
        hspg hplsstop
      obtain ⟨c, cs, hrend, -⟩ := sepSpec_render_head hspg
      have hlen : ¬ ((txt ++ glueTail ps' (renderToks trail ++ ']' :: rest)).length
          = (sp.render ++ (txt ++ glueTail ps' (renderToks trail ++ ']' :: rest))).length) := by
        rw [hrend]
        simp only [List.length_append, List.length_cons]
        omega
      have hstope : elemStop (glueTail ps' (renderToks trail ++ ']' :: rest)) = true :=
        glue_elemStop ps' trail rest hchain' htrail
      have helemrun := helem m (glueTail ps' (renderToks trail ++ ']' :: rest)) hstope
      have hfuel' : (glueTail ps' (renderToks trail ++ ']' :: rest)).length + 1 ≤ f := by
        have h2 : (glueTail ((sp, txt, v) :: ps') (renderToks trail ++ ']' :: rest)).length + 1
            ≤ f + 1 := hfuel
        rw [hglue, hrend] at h2
        simp only [List.length_append, List.length_cons] at h2
        omega
      have hih := ih m trail rest f hchain' htrail hfuel'
      have hneR : sp.render ≠ [] := by rw [hrend]; simp
      rw [hglue]
      simp [sepList0Go, hrun, hlen, helemrun, hih, hneR]

theorem constList_run (m : Nat) (lead : List SepTok) (txt1 : List Char) (v1 : ConstValue)
    (ps : List (SepSpec × List Char × ConstValue)) (trail : List SepTok) (rest : List Char)
    (hlead : goodToks lead
      (txt1 ++ glueTail ps (renderToks trail ++ ']' :: rest)) = true)
    (hstart1 : startOk txt1 = true) (helem1 : ElemOk txt1 v1)
    (hchain : chainOk ps (renderToks trail ++ ']' :: rest))
    (htrail : goodToks trail (']' :: rest) = true) :
    constListGo (m + 1 + 1)
      ('[' :: (renderToks lead ++ (txt1 ++ glueTail ps (renderToks trail ++ ']' :: rest))))
      = some (rest, v1 :: ps.map (fun q => q.2.2)) := by
  have hsepstop1 : sepStop (txt1 ++ glueTail ps (renderToks trail ++ ']' :: rest)) = true :=
    (startOk_stops hstart1 _).1
  obtain ⟨o, h_lead⟩ : ∃ o, popt Separator.parse
      (renderToks lead ++ (txt1 ++ glueTail ps (renderToks trail ++ ']' :: rest)))
      = some (txt1 ++ glueTail ps (renderToks trail ++ ']' :: rest), o) := by
    cases lead with
    | nil => exact ⟨none, by simpa [renderToks] using popt_eq_none (sep_fail hsepstop1)⟩
    | cons t ts =>
      exact ⟨some (), popt_eq_some (sep_run (t :: ts) _ (by simp) hlead hsepstop1)⟩
  obtain ⟨o2, h_close⟩ : ∃ o2, ppair (popt Separator.parse) (cchar ']')
      (renderToks trail ++ ']' :: rest) = some (rest, (o2, ']')) := by
    cases trail with
    | nil =>
      refine ⟨none, ?_⟩
      have h1 : popt Separator.parse (']' :: rest) = some (']' :: rest, none) :=
        popt_eq_none (sep_fail rfl)
      have h2 : ppair (popt Separator.parse) (cchar ']') (']' :: rest)
          = some (rest, (none, ']')) := ppair_some h1 rfl
      simpa [renderToks] using h2
    | cons t ts =>
      refine ⟨some (), ?_⟩
      have hsep := sep_run (t :: ts) (']' :: rest) (by simp) htrail rfl
      exact ppair_some (popt_eq_some hsep) rfl
  have h_first := helem1 m (glueTail ps (renderToks trail ++ ']' :: rest))
    (glue_elemStop ps trail rest hchain htrail)
  have h_loop := sep_list_loop ps m trail rest
    ((glueTail ps (renderToks trail ++ ']' :: rest)).length + 1) hchain htrail (le_refl _)
  have h_sl : separatedList0 parse_list_separator (constValueGo (m + 1))
      (txt1 ++ glueTail ps (renderToks trail ++ ']' :: rest))
      = some (renderToks trail ++ ']' :: rest, v1 :: ps.map (fun q => q.2.2)) := by
    simp only [separatedList0, h_first, h_loop]
  have h_A : ppair (cchar '[') (popt Separator.parse)
      ('[' :: (renderToks lead ++ (txt1 ++ glueTail ps (renderToks trail ++ ']' :: rest))))
      = some (txt1 ++ glueTail ps (renderToks trail ++ ']' :: rest), ('[', o)) :=
    ppair_some rfl h_lead
  have h_BC := ppair_some h_sl h_close
  unfold constListGo
  exact pmap_eq (ppair_some h_A (pmap_eq h_BC))

/-- C6: constant-list parsing is separator-order-insensitive.  The universal
part: for any bracketed list text built from an arbitrary wellformed leading
separator run, element texts, arbitrary wellformed inter-element separators
(any combination of whitespace, comments and at most one comma/semicolon
each, with at least one separator between adjacent elements) and an
arbitrary trailing separator run, `ConstList::parse` returns exactly the
element sequence, so any re-punctuated equivalent of a list parses to the
same elements.  The remaining conjuncts: `"[]"` parses to the empty list,
and the claim's example `"[1,3;5 6 7,x 1.1]"` parses equal to a
re-punctuated equivalent. -/
theorem claim6_separator_insensitive :
    (∀ (lead : List SepTok) (txt1 : List Char) (v1 : ConstValue)
       (ps : List (SepSpec × List Char × ConstValue)) (trail : List SepTok)
       (rest : List Char),
       goodToks lead (txt1 ++ glueTail ps (renderToks trail ++ ']' :: rest)) = true →
       startOk txt1 = true → ElemOk txt1 v1 →
       chainOk ps (renderToks trail ++ ']' :: rest) →
       goodToks trail (']' :: rest) = true →
       ConstList.parse ('[' :: (renderToks lead ++
           (txt1 ++ glueTail ps (renderToks trail ++ ']' :: rest))))
         = some (rest, v1 :: ps.map (fun q => q.2.2))) ∧
    ConstList.parse "[]".toList = some ([], []) ∧
    ConstList.parse "[1,3;5 6 7,x 1.1]".toList
      = some ([], [ConstValue.Int 1, ConstValue.Int 3, ConstValue.Int 5, ConstValue.Int 6,
          ConstValue.Int 7, ConstValue.Identifier ['x'], ConstValue.Double (mkRat 11 10)]) ∧
    ConstList.parse "[1 3,5;6 7;x,1.1]".toList
      = some ([], [ConstValue.Int 1, ConstValue.Int 3, ConstValue.Int 5, ConstValue.Int 6,
          ConstValue.Int 7, ConstValue.Identifier ['x'], ConstValue.Double (mkRat 11 10)]) := by
  refine ⟨?_, rfl, rfl, rfl⟩
  intro lead txt1 v1 ps trail rest hlead hstart helem hchain htrail
  unfold ConstList.parse
  exact constList_run _ lead txt1 v1 ps trail rest hlead hstart helem hchain htrail

/-- Witness: the universal part of the separator-insensitivity theorem
instantiated at the structured description of the concrete text `"[1,2]"`. -/
theorem claim6_separator_insensitive_witness :
    ConstList.parse "[1,2]".toList = some ([], [ConstValue.Int 1, ConstValue.Int 2]) := by
  have h := claim6_separator_insensitive.1 [] ['1'] (ConstValue.Int 1)
    [(⟨[], some ',', []⟩, ['2'], ConstValue.Int 2)] [] []
    rfl rfl (elemOk_digit rfl rfl rfl rfl rfl rfl rfl rfl rfl rfl rfl)
    ⟨rfl, rfl, elemOk_digit rfl rfl rfl rfl rfl rfl rfl rfl rfl rfl rfl, trivial⟩ rfl
  exact h

/-- C7 (corrected): `Struct::parse` on
`"struct user\x7b1:optional string name; 2:i32 age=18\x7d"` succeeds, yielding the
struct named `user` with exactly two fields in declared order: field one
with id 1, requiredness `Some(false)` (the `optional` keyword), type
`string`, name `name` and no default; field two with id 2, requiredness
`None` (keyword absent), type `i32`, name `age` and integer default 18; and
adding extra whitespace around `:`, `;` and `=` parses to an equal AST.
The claim's stronger clause that ANY re-spacing/re-punctuation of the same
declaration parses to an equal AST is false: `Field::parse` itself consumes
the trailing separator run and list separator, so the inter-field separator
demanded by `Struct::parse`'s `separated_list0(Separator, Field)` must
still follow; removing the single space after the `;`, or replacing the
`;` by that space, makes the parse fail (last two conjuncts). -/
theorem claim7_struct_roundtrip :
    Struct.parse "struct user{1:optional string name; 2:i32 age=18}".toList
      = some ([], { name := "user".toList,
                    fields := [{ id := some 1, required := some false,
                                 type_ := FieldType.String, name := "name".toList,
                                 default := none },
                               { id := some 2, required := none,
                                 type_ := FieldType.I32, name := "age".toList,
                                 default := some (ConstValue.Int 18) }] }) ∧
    Struct.parse "struct  user  { 1 : optional  string  name ; 2 : i32  age = 18 }".toList
      = some ([], { name := "user".toList,
                    fields := [{ id := some 1, required := some false,
                                 type_ := FieldType.String, name := "name".toList,
                                 default := none },
                               { id := some 2, required := none,
                                 type_ := FieldType.I32, name := "age".toList,
                                 default := some (ConstValue.Int 18) }] }) ∧
    Struct.parse "struct user{1:optional string name;2:i32 age=18}".toList = none ∧
    Struct.parse "struct user{1:optional string name 2:i32 age=18}".toList = none :=
  ⟨rfl, rfl, rfl, rfl⟩

/-- C7 counterexample to the original claim: the claim's own declaration
with the single space after the `;` removed is a re-spacing of the same
declaration, yet `Struct::parse` fails on it instead of producing an equal
AST. -/
theorem claim7_respacing_counterexample :
    Struct.parse "struct user{1:optional string name;2:i32 age=18}".toList = none := rfl

end Thrift
